import Mathlib

/-!
Verification model of the LOGC-Stats hunting-log application.

The development shallowly embeds the two core subsystems of the source:

* the analytics engine of `react-app/src/components/AnalyticsDashboard.jsx`
  (record extraction from sheets, aggregation by member / blind / guide /
  species / date, ranking, condition filtering, display fallback), and
* the OCR text parser `parseOCRToTable` (strategies: JSON fast path,
  heuristic line scan, delimiter table detection, structured fallback,
  final per-line fallback).

Modelling conventions:

* JavaScript strings are Lean `String`s; cell values of sheet rows are
  strings, matching the documented input interface
  (`rows: [ { [header]: string } ]`).
* JavaScript numbers are modelled as exact rationals (`ℚ`).  All numeric
  values reached by the claims are small integers, where float and
  rational arithmetic agree.
* JavaScript objects used as string-keyed accumulators are modelled as
  association lists in insertion order (`Object.entries` enumeration
  order for non-integer-like keys).  No claim depends on the special
  enumeration order JS gives integer-like keys.
* `Array.prototype.sort` (stable since ES2019) is modelled by a stable
  insertion sort.
* `parseFloat` is modelled for optional sign, integer and fraction
  digits (exponent notation does not occur in the inputs of any claim);
  the `|| 0` idiom mapping `NaN` to `0` is built into `parseFloatD`.
-/

namespace LOGC

/-- Whitespace test used by the model for the JS `\s` class and `trim`
(space, tab, CR, LF). -/
def isWsChar (c : Char) : Bool :=
  c = ' ' || c = '\t' || c = '\r' || c = '\n'

/-- ASCII lower-casing of a character, model of the JS `toLowerCase` on
the ASCII header/cell data the application handles. -/
def lowerChar (c : Char) : Char :=
  if 'A' ≤ c ∧ c ≤ 'Z' then Char.ofNat (c.toNat + 32) else c

/-- Lower-case a string (model of `String.prototype.toLowerCase`). -/
def lowerS (s : String) : String :=
  ⟨s.data.map lowerChar⟩

/-- Drop whitespace from both ends of a character list. -/
def trimList (cs : List Char) : List Char :=
  ((cs.dropWhile isWsChar).reverse.dropWhile isWsChar).reverse

/-- Model of `String.prototype.trim`. -/
def jsTrim (s : String) : String :=
  ⟨trimList s.data⟩

/-- Does `pat` occur at the very start of `cs`? -/
def headMatches : List Char → List Char → Bool
  | [], _ => true
  | _ :: _, [] => false
  | p :: ps, c :: cs => p = c && headMatches ps cs

/-- Substring containment on character lists (model of
`String.prototype.includes`). -/
def containsSub : List Char → List Char → Bool
  | cs, pat =>
    match cs with
    | [] => pat.isEmpty
    | _ :: rest => headMatches pat cs || containsSub rest pat

/-- Substring containment on strings. -/
def containsStr (s pat : String) : Bool :=
  containsSub s.data pat.data

/-- Split a character list at every occurrence of `sep`, keeping empty
pieces (model of `String.prototype.split` with a single-character
separator). -/
def splitCharGo (sep : Char) : List Char → List Char → List String
  | [], cur => [⟨cur.reverse⟩]
  | c :: rest, cur =>
    if c = sep then ⟨cur.reverse⟩ :: splitCharGo sep rest []
    else splitCharGo sep rest (c :: cur)

/-- Split a string at every occurrence of `sep`. -/
def splitChar (sep : Char) (s : String) : List String :=
  splitCharGo sep s.data []

/-- Association-list lookup returning the first binding of `k`. -/
def alookup (m : List (String × α)) (k : String) : Option α :=
  (m.find? (fun p => p.1 = k)).map (·.2)

/-- JS-object style insertion: update the binding in place when the key
exists, otherwise append at the end (insertion-order semantics of JS
string-keyed objects). -/
def objInsert (m : List (String × α)) (k : String) (v : α) : List (String × α) :=
  match m with
  | [] => [(k, v)]
  | (k₀, v₀) :: rest =>
    if k₀ = k then (k₀, v) :: rest else (k₀, v₀) :: objInsert rest k v

/-- First-occurrence deduplication relative to the already-seen keys:
the enumeration order of a JS `Set` filled by successive `add` calls. -/
def dedupSeen (seen : List String) : List String → List String
  | [] => []
  | x :: xs =>
    if x ∈ seen then dedupSeen seen xs else x :: dedupSeen (x :: seen) xs

/-- First-occurrence deduplication, the enumeration order of a JS `Set`
filled by successive `add` calls. -/
def dedupFirst (l : List String) : List String :=
  dedupSeen [] l

/-- Digit test for the JS `\d` class. -/
def isDigitChar (c : Char) : Bool :=
  '0' ≤ c && c ≤ '9'

/-- Numeric value of a run of decimal digits. -/
def digitsVal (cs : List Char) : Nat :=
  cs.foldl (fun a c => a * 10 + (c.toNat - '0'.toNat)) 0

/-- Model of `parseFloat(x) || 0`: skip leading whitespace, optional
sign, integer digits, optional fraction digits; an input with no digit
in that shape (JS `NaN`) yields `0`.  Exponent notation is not modelled;
it occurs in no input relevant to the claims. -/
def parseFloatD (s : String) : ℚ :=
  let cs := s.data.dropWhile isWsChar
  let sign : ℚ := match cs with | '-' :: _ => -1 | _ => 1
  let cs := match cs with | '-' :: r => r | '+' :: r => r | _ => cs
  let ip := cs.takeWhile isDigitChar
  let rest := cs.dropWhile isDigitChar
  let fp := match rest with
    | '.' :: r => r.takeWhile isDigitChar
    | _ => []
  if ip = [] ∧ fp = [] then 0
  else sign * ((digitsVal ip : ℚ) + (digitsVal fp : ℚ) / ((10 : ℚ) ^ fp.length))

/-- Model of `parseInt(s, 10)`: skip leading whitespace, optional sign,
then decimal digits; `none` models `NaN`. -/
def parseIntOpt (s : String) : Option Int :=
  let cs := s.data.dropWhile isWsChar
  let (neg, cs) : Bool × List Char := match cs with
    | '-' :: r => (true, r)
    | '+' :: r => (false, r)
    | _ => (false, cs)
  let ds := cs.takeWhile isDigitChar
  if ds = [] then none
  else some (if neg then -(digitsVal ds : Int) else (digitsVal ds : Int))

/-! ### Stable sorting

`Array.prototype.sort` with a numeric comparator is stable (ES2019).
`insBefore bef x l` inserts `x` in front of the first element `y` for
which `bef x y` holds (with `bef` the strict "must come earlier"
relation of the comparator), which reproduces a stable sort when
elements are inserted in original order. -/

/-- Insert `x` before the first element `y` of `l` with `bef x y`. -/
def insBefore (bef : α → α → Bool) (x : α) : List α → List α
  | [] => [x]
  | y :: ys => if bef x y then x :: y :: ys else y :: insBefore bef x ys

/-- Stable sort by the strict comparator `bef` (insertion sort,
processing the list in its original order). -/
def sortStable (bef : α → α → Bool) (l : List α) : List α :=
  l.foldl (fun acc x => insBefore bef x acc) []

/-- Sort descending by a rational key, stable on ties — the model of
`.sort((a, b) => key(b) - key(a))`. -/
def sortDescBy (key : α → ℚ) (l : List α) : List α :=
  sortStable (fun x y => key y < key x) l

/-- Sort ascending by an integer key, stable on ties — the model of
`.sort((a, b) => key(a) - key(b))`. -/
def sortAscBy (key : α → Int) (l : List α) : List α :=
  sortStable (fun x y => key x < key y) l

theorem insBefore_perm (bef : α → α → Bool) (x : α) (l : List α) :
    List.Perm (insBefore bef x l) (x :: l) := by
  induction l with
  | nil => simp [insBefore]
  | cons y ys ih =>
    simp only [insBefore]
    by_cases h : bef x y = true
    · simp [h]
    · simp only [h, if_false]
      exact ((ih.cons y).trans (List.Perm.swap x y ys))

theorem sortStable_perm (bef : α → α → Bool) (l : List α) :
    List.Perm (sortStable bef l) l := by
  suffices h : ∀ acc : List α,
      List.Perm (l.foldl (fun acc x => insBefore bef x acc) acc) (l.reverse ++ acc) by
    have h2 := h []
    rw [List.append_nil] at h2
    exact h2.trans (List.reverse_perm l)
  induction l with
  | nil => intro acc; simp
  | cons y ys ih =>
    intro acc
    simp only [List.foldl_cons, List.reverse_cons, List.append_assoc]
    refine (ih (insBefore bef y acc)).trans ?_
    have h1 : List.Perm (insBefore bef y acc) (y :: acc) := insBefore_perm bef y acc
    simpa using List.Perm.append_left ys.reverse h1

theorem sortStable_length (bef : α → α → Bool) (l : List α) :
    (sortStable bef l).length = l.length :=
  (sortStable_perm bef l).length_eq

theorem mem_sortStable {bef : α → α → Bool} {l : List α} {x : α} :
    x ∈ sortStable bef l ↔ x ∈ l :=
  (sortStable_perm bef l).mem_iff

/-- Descending sortedness by a rational key, stated on adjacent pairs. -/
def SortedDescBy (key : α → ℚ) (l : List α) : Prop :=
  List.Chain' (fun a b => key b ≤ key a) l

theorem insBefore_sorted (key : α → ℚ) (x : α) (l : List α)
    (h : SortedDescBy key l) :
    SortedDescBy key (insBefore (fun a b => decide (key b < key a)) x l) := by
  induction l with
  | nil => simp [insBefore, SortedDescBy]
  | cons y ys ih =>
    simp only [insBefore]
    by_cases hxy : key y < key x
    · simp only [hxy, decide_True, if_true]
      exact List.chain'_cons.mpr ⟨le_of_lt hxy, h⟩
    · simp only [hxy, decide_False, if_false]
      have hyx : key x ≤ key y := not_lt.mp hxy
      have hys : SortedDescBy key ys := h.tail
      have hrec := ih hys
      refine List.chain'_cons'.mpr ⟨?_, hrec⟩
      intro z hz
      cases ys with
      | nil =>
        simp only [insBefore, List.head?_cons, Option.mem_def, Option.some.injEq] at hz
        subst hz; exact hyx
      | cons w ws =>
        have hyw : key w ≤ key y := (List.chain'_cons.mp h).1
        simp only [insBefore] at hz
        by_cases hxw : key w < key x
        · rw [if_pos (by simpa using hxw)] at hz
          simp only [List.head?_cons, Option.mem_def, Option.some.injEq] at hz
          subst hz; exact hyx
        · rw [if_neg (by simpa using hxw)] at hz
          simp only [List.head?_cons, Option.mem_def, Option.some.injEq] at hz
          subst hz; exact hyw

theorem sortDescBy_sorted (key : α → ℚ) (l : List α) :
    SortedDescBy key (sortDescBy key l) := by
  suffices h : ∀ acc : List α, SortedDescBy key acc →
      SortedDescBy key (l.foldl (fun acc x =>
        insBefore (fun a b => key b < key a) x acc) acc) by
    exact h [] (by simp [SortedDescBy])
  induction l with
  | nil => intro acc hacc; simpa using hacc
  | cons y ys ih =>
    intro acc hacc
    simp only [List.foldl_cons]
    exact ih _ (insBefore_sorted key y acc hacc)

theorem sortDescBy_perm (key : α → ℚ) (l : List α) :
    List.Perm (sortDescBy key l) l :=
  sortStable_perm _ l

/-! ### Data model of the analytics dashboard

Translated from `AnalyticsDashboard.jsx`.  One `Sheet` is a spreadsheet
tab; a `HuntRecord` is the normalized per-row record the `analytics`
memo constructs (lines 84–141 of the source). -/

/-- One spreadsheet sheet: tab name, ordered header list, rows as
header-name → cell-string mappings. -/
structure Sheet where
  name : String
  headers : List String
  rows : List (List (String × String))
  deriving DecidableEq, Repr

/-- One normalized hunt record (source lines 128–139).  The fields
`memberBlind` / `memberSpecies` breakdowns and presentation-only
statistics of the source are not modelled; no claim mentions them. -/
structure HuntRecord where
  date : String
  member : String
  guide : String
  blind : String
  guns : ℚ
  condition : String
  totalDucks : ℚ
  totalGeese : ℚ
  speciesKills : List (String × ℚ)
  totalMallards : ℚ
  deriving DecidableEq, Repr

/-- Ducks/geese accumulator cell of the `memberStats` / `blindStats` /
`guideStats` / `dateStats` objects. -/
structure DG where
  ducks : ℚ
  geese : ℚ
  deriving DecidableEq, Repr

/-- Header predicate of the species-column filter (source lines 74–82):
contains one of the species keywords and is not a derived total
column. -/
def isSpeciesHeader (h : String) : Bool :=
  let lower := lowerS h
  (containsStr lower "mallard" || containsStr lower "sprig" ||
   containsStr lower "widgeon" || containsStr lower "teal" ||
   containsStr lower "wood" || containsStr lower "other" ||
   containsStr lower "geese" || containsStr lower "pheasant") &&
  !containsStr lower "day total" && !containsStr lower "hunter total"

/-- Cell access `row[h] || ''` — a missing key yields the empty
string. -/
def cellOf (row : List (String × String)) (h : String) : String :=
  (alookup row h).getD ""

/-- Cell access through an optionally-resolved header,
`row[headers[idx]]` with `idx = -1` giving `row[undefined] → '' `. -/
def cellOpt (row : List (String × String)) (h : Option String) : String :=
  match h with
  | some h => cellOf row h
  | none => ""

/-- Does the header match the `^\d{4}-\d{2}-\d{2}` ISO-date test of the
source (`h.match(/^\d{4}-\d{2}-\d{2}/)`)? -/
def isoDateStart (s : String) : Bool :=
  match s.data with
  | a :: b :: c :: d :: '-' :: e :: f :: '-' :: g :: h :: _ =>
    isDigitChar a && isDigitChar b && isDigitChar c && isDigitChar d &&
    isDigitChar e && isDigitChar f && isDigitChar g && isDigitChar h
  | _ => false

/-- Per-sheet resolved context: the column-resolver results computed
once per sheet (source lines 40–82). -/
structure SheetCtx where
  headers : List String
  date : String
  memberH : Option String
  guideH : Option String
  blindH : Option String
  gunsH : Option String
  speciesCols : List String
  condition : String
  deriving DecidableEq, Repr

/-- Sheet-level condition extraction (source lines 56–71): find the row
whose `Date`-column cell is the label `conditions`/`condition`, then
read the paired date-value column of that row; keep it unless it itself
looks like an ISO date. -/
def sheetConditionOf (sheet : Sheet) : String :=
  let dateH := sheet.headers.find? (fun h => lowerS h = "date")
  let dateValueCol := sheet.headers.find? (fun h => isoDateStart h)
  let conditionRow := sheet.rows.find? (fun r =>
    match dateH with
    | some dh =>
      let cell := cellOf r dh
      cell ≠ "" && (lowerS (jsTrim cell) = "conditions" || lowerS (jsTrim cell) = "condition")
    | none => false)
  match conditionRow, dateValueCol with
  | some row, some dvc =>
    let cell := cellOf row dvc
    if cell ≠ "" then
      let v := jsTrim cell
      if v ≠ "" && !isoDateStart v then v else "Unknown"
    else "Unknown"
  | _, _ => "Unknown"

/-- Resolve the per-sheet context (source lines 40–82).  The source
computes `findIndex` and then accesses `headers[idx]`; resolving
directly to the first matching header is the same. -/
def ctxOf (sheet : Sheet) : SheetCtx :=
  { headers := sheet.headers
    date := if sheet.name = "" then "Unknown" else sheet.name
    memberH := sheet.headers.find? (fun h => containsStr (lowerS h) "member")
    guideH := sheet.headers.find? (fun h => containsStr (lowerS h) "guide")
    blindH := sheet.headers.find? (fun h => containsStr (lowerS h) "blind")
    gunsH := sheet.headers.find? (fun h => containsStr (lowerS h) "gun")
    speciesCols := sheet.headers.filter isSpeciesHeader
    condition := sheetConditionOf sheet }

/-- The member skip test (source lines 95–99): header row, empty rows
and total rows produce no record. -/
def skipMember (member : String) : Bool :=
  let memberLower := lowerS member
  member = "" || memberLower = "member" ||
  containsStr memberLower "day total" || containsStr memberLower "total"

/-- The species-column scan of one row (source lines 101–119): parse
each species cell, keep positive values in `speciesKills`, and split
the running totals into geese (column name contains `geese`) and
ducks (all other species). -/
def speciesScan (ctx : SheetCtx) (row : List (String × String)) :
    ℚ × ℚ × List (String × ℚ) :=
  ctx.speciesCols.foldl
    (fun acc name =>
      let (td, tg, kills) := acc
      let value := parseFloatD (cellOf row name)
      if 0 < value then
        let kills' := objInsert kills name value
        if containsStr (lowerS name) "geese" then (td, tg + value, kills')
        else (td + value, tg, kills')
      else acc)
    (0, 0, [])

/-- One mallard cell (source lines 122–123): the literal key
(`Drake Mallard` / `Hen Mallard`) if present and non-empty, otherwise
the first header containing both `drake`/`hen` and `mallard`. -/
def mallardCell (headers : List String) (row : List (String × String))
    (exact sub : String) : String :=
  let direct := cellOf row exact
  if direct ≠ "" then direct
  else match headers.find? (fun h =>
      containsStr (lowerS h) sub && containsStr (lowerS h) "mallard") with
    | some h => cellOf row h
    | none => ""

/-- The per-record mallard total (source lines 121–124):
`parseFloat(drake cell) || 0` plus `parseFloat(hen cell) || 0`. -/
def recordMallards (headers : List String) (row : List (String × String)) : ℚ :=
  parseFloatD (mallardCell headers row "Drake Mallard" "drake") +
  parseFloatD (mallardCell headers row "Hen Mallard" "hen")

/-- Record extraction for one row (source lines 84–141): resolve the
member/guide/blind/guns cells, apply the skip rules, run the species
scan, and drop the row when ducks, geese and guns are all zero. -/
def extractRow (ctx : SheetCtx) (row : List (String × String)) :
    Option HuntRecord :=
  let member := jsTrim (cellOpt row ctx.memberH)
  let guide := jsTrim (cellOpt row ctx.guideH)
  let blind := jsTrim (cellOpt row ctx.blindH)
  let guns := parseFloatD (cellOpt row ctx.gunsH)
  if skipMember member then none
  else
    let scan := speciesScan ctx row
    let totalDucks := scan.1
    let totalGeese := scan.2.1
    let speciesKills := scan.2.2
    let mallards := recordMallards ctx.headers row
    if totalDucks = 0 ∧ totalGeese = 0 ∧ guns = 0 then none
    else
      some
        { date := ctx.date
          member := member
          guide := guide
          blind := if blind = "" then "Unknown" else blind
          guns := guns
          condition := ctx.condition
          totalDucks := totalDucks
          totalGeese := totalGeese
          speciesKills := speciesKills
          totalMallards := mallards }

/-- All records of a sheet list, in source push order. -/
def extractRecords (sheets : List Sheet) : List HuntRecord :=
  sheets.flatMap (fun sheet => sheet.rows.filterMap (extractRow (ctxOf sheet)))

/-! ### Aggregation state -/

/-- The accumulator objects threaded through both aggregation loops
(`memberStats`, `blindStats`, `guideStats`, `speciesStats`,
`dateStats`).  The mallard/member-blind/member-species side tables of
the source feed only presentation fields no claim mentions and are not
modelled. -/
structure AggState where
  memberStats : List (String × DG)
  blindStats : List (String × DG)
  guideStats : List (String × DG)
  speciesStats : List (String × ℚ)
  dateStats : List (String × DG)
  deriving DecidableEq, Repr

/-- Empty aggregation state. -/
def initAgg : AggState := ⟨[], [], [], [], []⟩

/-- Add ducks/geese into a stats object under key `k`
(`if (!stats[k]) stats[k] = {ducks:0, geese:0}; stats[k].ducks += d; …`). -/
def bumpDG (m : List (String × DG)) (k : String) (d g : ℚ) : List (String × DG) :=
  match alookup m k with
  | some dg => objInsert m k ⟨dg.ducks + d, dg.geese + g⟩
  | none => objInsert m k ⟨d, g⟩

/-- Add one row of species kills into the species accumulator
(`Object.entries(speciesKills).forEach(...)`). -/
def bumpKills (m : List (String × ℚ)) (kills : List (String × ℚ)) :
    List (String × ℚ) :=
  kills.foldl
    (fun m p => objInsert m p.1 ((alookup m p.1).getD 0 + p.2)) m

/-- The per-record aggregation step of the filtered path (source lines
479–531): member aggregate when the member key is non-empty, blind
aggregate when the blind is non-empty and not `Unknown`, guide
aggregate when the guide is non-empty, species and date aggregates
unconditionally. -/
def aggStep (st : AggState) (r : HuntRecord) : AggState :=
  { memberStats :=
      if r.member ≠ "" then bumpDG st.memberStats r.member r.totalDucks r.totalGeese
      else st.memberStats
    blindStats :=
      if r.blind ≠ "" ∧ r.blind ≠ "Unknown" then
        bumpDG st.blindStats r.blind r.totalDucks r.totalGeese
      else st.blindStats
    guideStats :=
      if r.guide ≠ "" then bumpDG st.guideStats r.guide r.totalDucks r.totalGeese
      else st.guideStats
    speciesStats := bumpKills st.speciesStats r.speciesKills
    dateStats := bumpDG st.dateStats r.date r.totalDucks r.totalGeese }

/-- Fold the aggregation step over a record list. -/
def aggRecords (records : List HuntRecord) : AggState :=
  records.foldl aggStep initAgg

/-! ### The unfiltered per-row loop

The `analytics` memo (source lines 84–193) constructs the record and
updates all accumulator objects inside one `rows.forEach` body; the
blind/guide conditions there test the raw trimmed cell values.  It is
translated literally; `processRow_eq` below relates it to
`extractRow`/`aggStep`. -/

/-- State of the unfiltered loop: the pushed records plus the
accumulators. -/
structure DashState where
  allRecords : List HuntRecord
  agg : AggState
  deriving DecidableEq, Repr

/-- One iteration of the unfiltered `rows.forEach` body (source lines
84–193). -/
def processRow (ctx : SheetCtx) (st : DashState)
    (row : List (String × String)) : DashState :=
  let member := jsTrim (cellOpt row ctx.memberH)
  let guide := jsTrim (cellOpt row ctx.guideH)
  let blind := jsTrim (cellOpt row ctx.blindH)
  let guns := parseFloatD (cellOpt row ctx.gunsH)
  if skipMember member then st
  else
    let scan := speciesScan ctx row
    let totalDucks := scan.1
    let totalGeese := scan.2.1
    let speciesKills := scan.2.2
    let mallards := recordMallards ctx.headers row
    if totalDucks = 0 ∧ totalGeese = 0 ∧ guns = 0 then st
    else
      let record : HuntRecord :=
        { date := ctx.date
          member := member
          guide := guide
          blind := if blind = "" then "Unknown" else blind
          guns := guns
          condition := ctx.condition
          totalDucks := totalDucks
          totalGeese := totalGeese
          speciesKills := speciesKills
          totalMallards := mallards }
      { allRecords := st.allRecords ++ [record]
        agg :=
          { memberStats :=
              if member ≠ "" then
                bumpDG st.agg.memberStats member totalDucks totalGeese
              else st.agg.memberStats
            blindStats :=
              if blind ≠ "" ∧ blind ≠ "Unknown" then
                bumpDG st.agg.blindStats blind totalDucks totalGeese
              else st.agg.blindStats
            guideStats :=
              if guide ≠ "" then
                bumpDG st.agg.guideStats guide totalDucks totalGeese
              else st.agg.guideStats
            speciesStats := bumpKills st.agg.speciesStats speciesKills
            dateStats := bumpDG st.agg.dateStats ctx.date totalDucks totalGeese } }

/-- The full sheet loop of the `analytics` memo. -/
def processSheets (sheets : List Sheet) : DashState :=
  sheets.foldl
    (fun st sheet => sheet.rows.foldl (processRow (ctxOf sheet)) st)
    ⟨[], initAgg⟩

/-! ### Date keys

`parseDate` of the source builds a JS `Date` and takes `getTime()`.
The model computes days since 1970-01-01 by the standard civil-date
formula and scales to milliseconds; the timezone offset of the JS local
`Date` constructor is not modelled (it shifts every key by the same
constant and no claim depends on absolute key values).  Strings that
JS would parse to `NaN` get key `0`; they never occur in the claims. -/

/-- Days from 1970-01-01 of a civil date, month `1..12` (arithmetic on
`Int` with flooring division, valid for all inputs). -/
def daysFromCivil (y m d : Int) : Int :=
  let y' := if m ≤ 2 then y - 1 else y
  let era := y'.fdiv 400
  let yoe := y' - era * 400
  let mp := if m > 2 then m - 3 else m + 9
  let doy := (153 * mp + 2).fdiv 5 + d - 1
  let doe := yoe * 365 + yoe.fdiv 4 - yoe.fdiv 100 + doy
  era * 146097 + doe - 719468

/-- `new Date(year, monthIndex, day).getTime()` with JS month-overflow
normalization (month index is 0-based). -/
def jsDateMs (year monthIdx day : Int) : Int :=
  let y := year + monthIdx.fdiv 12
  let m := monthIdx.emod 12 + 1
  daysFromCivil y m day * 86400000

/-- `new Date(dateStr).getTime()` for the ISO `YYYY-MM-DD` prefix shape;
other shapes (which occur in no claim) give `0`. -/
def jsDateParseMs (s : String) : Int :=
  match s.data with
  | a :: b :: c :: d :: '-' :: e :: f :: '-' :: g :: h :: _ =>
    if isDigitChar a && isDigitChar b && isDigitChar c && isDigitChar d &&
       isDigitChar e && isDigitChar f && isDigitChar g && isDigitChar h then
      daysFromCivil (digitsVal [a, b, c, d] : Int)
        (digitsVal [e, f] : Int) (digitsVal [g, h] : Int) * 86400000
    else 0
  | _ => 0

/-- The `parseDate` helper (source lines 284–296): `MM_DD_YY` sheet
names via `new Date(year, month, day)` (2-digit years get `+2000`),
anything else through the general `Date` constructor. -/
def parseDateKey (s : String) : Int :=
  if s.data.contains '_' then
    match splitChar '_' s with
    | [p0, p1, p2] =>
      match parseIntOpt p0, parseIntOpt p1, parseIntOpt p2 with
      | some mo, some d, some y =>
        jsDateMs (if y < 100 then y + 2000 else y) (mo - 1) d
      | _, _, _ => 0
    | _ => jsDateParseMs s
  else jsDateParseMs s

/-! ### Assembly of the display structures

The entry-building code is textually identical in the unfiltered
`analytics` memo (lines 196–429) and the `filteredAnalytics` memo
(lines 533–753); it is translated once and used by both views. -/

/-- One aggregate entry (`AggregateEntry` of the spec).  The
presentation-only `mallards`/`otherDucks` breakdown the source adds to
blind and guide entries is not modelled. -/
structure Entry where
  name : String
  ducks : ℚ
  geese : ℚ
  total : ℚ
  avgDucks : ℚ
  avgGeese : ℚ
  average : ℚ
  hunts : Nat
  deriving DecidableEq, Repr

/-- One species total entry. -/
structure SpeciesEntry where
  name : String
  total : ℚ
  deriving DecidableEq, Repr

/-- One date-trend entry.  `dateFormatted` (a display string) is not
modelled. -/
structure DateTrendEntry where
  date : String
  dateSort : Int
  ducks : ℚ
  geese : ℚ
  mallards : ℚ
  total : ℚ
  blindCount : Nat
  status : String
  deriving DecidableEq, Repr

/-- Build one aggregate entry from a stats binding: hunt count = number
of records whose `field` equals the key (`|| 1` guards the division). -/
def mkEntry (records : List HuntRecord) (field : HuntRecord → String)
    (p : String × DG) : Entry :=
  let n := (records.filter (fun r => field r = p.1)).length
  let hunts := if n = 0 then 1 else n
  let totalDucks := p.2.ducks
  let totalGeese := p.2.geese
  let total := totalDucks + totalGeese
  { name := p.1
    ducks := totalDucks
    geese := totalGeese
    total := total
    avgDucks := totalDucks / (hunts : ℚ)
    avgGeese := totalGeese / (hunts : ℚ)
    average := total / (hunts : ℚ)
    hunts := hunts }

/-- All member entries sorted by total descending (source lines
200–218 / 533–550). -/
def buildAllMembers (records : List HuntRecord) (agg : AggState) : List Entry :=
  sortDescBy Entry.total
    (agg.memberStats.map (mkEntry records HuntRecord.member))

/-- All blind entries: filter out empty and `Unknown` keys, sort by
total descending (source lines 226–251 / 558–582). -/
def buildTopBlinds (records : List HuntRecord) (agg : AggState) : List Entry :=
  sortDescBy Entry.total
    ((agg.blindStats.filter (fun p => p.1 ≠ "" ∧ p.1 ≠ "Unknown")).map
      (mkEntry records HuntRecord.blind))

/-- Guide entries: filter only on truthiness of the key, sort by total
descending and cap at 5 (source lines 367–393 / 697–722). -/
def buildTopGuides (records : List HuntRecord) (agg : AggState) : List Entry :=
  (sortDescBy Entry.total
    ((agg.guideStats.filter (fun p => p.1 ≠ "")).map
      (mkEntry records HuntRecord.guide))).take 5

/-- Species totals sorted descending (source lines 256–258 / 587–589). -/
def buildTopSpecies (agg : AggState) : List SpeciesEntry :=
  sortDescBy SpeciesEntry.total
    (agg.speciesStats.map (fun p => ⟨p.1, p.2⟩))

/-- The known hunt dates: sheet names (empty normalized to `Unknown`),
`Unknown` excluded, first-occurrence deduplicated (source lines
274–281 / 605–612). -/
def knownDates (sheets : List Sheet) : List String :=
  dedupFirst
    ((sheets.map (fun sheet => if sheet.name = "" then "Unknown" else sheet.name)).filter
      (fun d => d ≠ "Unknown"))

/-- One date-trend entry (source lines 321–364 / 652–695): a date with
an entry in `dateStats` is `hunted` and sums mallards and distinct
valid blinds over its records; a date with none is `DNH` with zeroed
fields. -/
def mkDateEntry (records : List HuntRecord) (dateStats : List (String × DG))
    (date : String) : DateTrendEntry :=
  match alookup dateStats date with
  | some dg =>
    let dateRecords := records.filter (fun r => r.date = date)
    let dateMallards := dateRecords.foldl (fun s r => s + r.totalMallards) 0
    let uniqueBlinds := dedupFirst
      ((dateRecords.filter (fun r =>
          r.blind ≠ "" ∧ r.blind ≠ "Unknown" ∧ jsTrim r.blind ≠ "")).map
        (fun r => jsTrim r.blind))
    { date := date
      dateSort := parseDateKey date
      ducks := dg.ducks
      geese := dg.geese
      mallards := dateMallards
      total := dg.ducks + dg.geese
      blindCount := uniqueBlinds.length
      status := "hunted" }
  | none =>
    { date := date
      dateSort := parseDateKey date
      ducks := 0
      geese := 0
      mallards := 0
      total := 0
      blindCount := 0
      status := "DNH" }

/-- The date trend series: one entry per known date, sorted ascending
by parsed date. -/
def buildDateTrends (records : List HuntRecord) (agg : AggState)
    (sheets : List Sheet) : List DateTrendEntry :=
  sortAscBy DateTrendEntry.dateSort
    ((knownDates sheets).map (mkDateEntry records agg.dateStats))

/-- The display-facing structure shared by the unfiltered and filtered
paths (the fields destructured at source lines 772–783). -/
structure DisplayAnalytics where
  allMembers : List Entry
  topMembers : List Entry
  topMembersAvg : List Entry
  topBlinds : List Entry
  topBlindsAvg : List Entry
  topSpecies : List SpeciesEntry
  topGuides : List Entry
  topGuidesAvg : List Entry
  dateTrends : List DateTrendEntry
  deriving DecidableEq, Repr

/-- Assemble the display structure from a record list, an aggregation
state and the sheet list (used for the date axis).  `topMembers` is the
first 10 of the total ranking; `topMembersAvg` re-sorts those ten by
average (source lines 220–224 / 552–556); guides analogously with a cap
of 5 (lines 367–396 / 697–725); blinds and species have no cap. -/
def assemble (records : List HuntRecord) (agg : AggState)
    (sheets : List Sheet) : DisplayAnalytics :=
  let allMembers := buildAllMembers records agg
  let topMembers := allMembers.take 10
  let topBlinds := buildTopBlinds records agg
  let topGuides := buildTopGuides records agg
  { allMembers := allMembers
    topMembers := topMembers
    topMembersAvg := (sortDescBy Entry.average topMembers).take 10
    topBlinds := topBlinds
    topBlindsAvg := sortDescBy Entry.average topBlinds
    topSpecies := buildTopSpecies agg
    topGuides := topGuides
    topGuidesAvg := sortDescBy Entry.average topGuides
    dateTrends := buildDateTrends records agg sheets }

/-- The unfiltered view: run the interleaved `analytics` loop, then
assemble. -/
def analyticsView (sheets : List Sheet) : DisplayAnalytics :=
  let st := processSheets sheets
  assemble st.allRecords st.agg sheets

/-- The filtered view (the `filteredAnalytics` memo, source lines
463–766): re-aggregate a record list and assemble. -/
def filteredView (records : List HuntRecord) (sheets : List Sheet) :
    DisplayAnalytics :=
  assemble records (aggRecords records) sheets

/-- The condition filter over the full record list (source lines
455–460). -/
def filterRecords (sheets : List Sheet) (cond : String) : List HuntRecord :=
  let all := (processSheets sheets).allRecords
  if cond = "all" then all else all.filter (fun r => r.condition = cond)

/-- What the dashboard displays for a condition selection:
`filteredAnalytics` is `null` when the filtered record list is empty,
and `displayAnalytics = filteredAnalytics || analytics` then falls back
to the unfiltered analytics (source lines 463–466 and 768–769). -/
def displayAnalytics (sheets : List Sheet) (cond : String) : DisplayAnalytics :=
  if filterRecords sheets cond = [] then analyticsView sheets
  else filteredView (filterRecords sheets cond) sheets

/-! ### Correspondence between the interleaved loop and record-wise
re-aggregation

The unfiltered `analytics` loop builds the record and updates all
accumulators inside one body, testing blind/guide on the raw trimmed
cells; `aggStep` (the filtered path) tests the record fields, with
`record.blind` the `Unknown`-normalized value.  The two tests agree:
the blind test rejects exactly the raw values `""` and `"Unknown"`,
which are the values normalized to `"Unknown"`. -/

theorem processRow_eq (ctx : SheetCtx) (st : DashState)
    (row : List (String × String)) :
    processRow ctx st row =
      match extractRow ctx row with
      | none => st
      | some r => ⟨st.allRecords ++ [r], aggStep st.agg r⟩ := by
  unfold processRow extractRow
  by_cases h1 : skipMember (jsTrim (cellOpt row ctx.memberH)) = true
  · simp [h1]
  · simp only [Bool.not_eq_true] at h1
    simp only [h1, Bool.false_eq_true, if_false]
    by_cases h2 : (speciesScan ctx row).1 = 0 ∧ (speciesScan ctx row).2.1 = 0 ∧
        parseFloatD (cellOpt row ctx.gunsH) = 0
    · simp [h2]
    · simp only [h2, if_false]
      simp only [aggStep]
      by_cases hb : jsTrim (cellOpt row ctx.blindH) = ""
      · simp [hb]
      · by_cases hbu : jsTrim (cellOpt row ctx.blindH) = "Unknown"
        · simp [hb, hbu]
        · simp [hb, hbu]

theorem processRows_eq (ctx : SheetCtx) (rows : List (List (String × String)))
    (st : DashState) :
    rows.foldl (processRow ctx) st =
      ⟨st.allRecords ++ rows.filterMap (extractRow ctx),
       (rows.filterMap (extractRow ctx)).foldl aggStep st.agg⟩ := by
  induction rows generalizing st with
  | nil => simp
  | cons row rest ih =>
    simp only [List.foldl_cons, List.filterMap_cons]
    rw [processRow_eq]
    cases hrow : extractRow ctx row with
    | none =>
      simp only []
      rw [ih st]
    | some r =>
      simp only []
      rw [ih ⟨st.allRecords ++ [r], aggStep st.agg r⟩]
      simp [List.append_assoc]

theorem processSheets_eq (sheets : List Sheet) :
    processSheets sheets =
      ⟨extractRecords sheets, aggRecords (extractRecords sheets)⟩ := by
  unfold processSheets aggRecords
  suffices h : ∀ st : DashState,
      sheets.foldl
        (fun st sheet => sheet.rows.foldl (processRow (ctxOf sheet)) st) st =
        ⟨st.allRecords ++ extractRecords sheets,
         (extractRecords sheets).foldl aggStep st.agg⟩ by
    have h2 := h ⟨[], initAgg⟩
    simpa using h2
  induction sheets with
  | nil => intro st; simp [extractRecords]
  | cons sheet rest ih =>
    intro st
    simp only [List.foldl_cons]
    rw [processRows_eq]
    rw [ih]
    simp [extractRecords, List.foldl_append, List.append_assoc]

/-- The aggregates displayed by the unfiltered path coincide with the
filtered path re-run on the full record list: both sides share one
assembly and, by the correspondence above, one aggregation state. -/
theorem analyticsView_eq_filteredView (sheets : List Sheet) :
    analyticsView sheets = filteredView (extractRecords sheets) sheets := by
  unfold analyticsView filteredView
  rw [processSheets_eq]

/-! ### Supporting lemmas on the accumulators and extraction -/

theorem alookup_objInsert_ne {α : Type} (m : List (String × α)) (k k' : String)
    (v : α) (h : k ≠ k') :
    alookup (objInsert m k v) k' = alookup m k' := by
  induction m with
  | nil =>
    simp [objInsert, alookup, List.find?, h]
  | cons p rest ih =>
    obtain ⟨k₀, v₀⟩ := p
    simp only [objInsert]
    by_cases hk : k₀ = k
    · subst hk
      simp [alookup, List.find?, h]
    · simp only [if_neg hk, alookup, List.find?]
      by_cases hk' : k₀ = k'
      · simp [hk']
      · simp only [hk', decide_False]
        exact ih

theorem alookup_bumpDG_ne (m : List (String × DG)) (k k' : String)
    (d g : ℚ) (h : k ≠ k') :
    alookup (bumpDG m k d g) k' = alookup m k' := by
  unfold bumpDG
  cases alookup m k with
  | none => exact alookup_objInsert_ne m k k' _ h
  | some dg => exact alookup_objInsert_ne m k k' _ h

/-- A date never carried by any record of the list has no `dateStats`
entry after aggregation. -/
theorem dateStats_lookup_none (records : List HuntRecord) (d : String)
    (h : ∀ r ∈ records, r.date ≠ d) :
    alookup (aggRecords records).dateStats d = none := by
  unfold aggRecords
  suffices hgen : ∀ st : AggState, alookup st.dateStats d = none →
      alookup (records.foldl aggStep st).dateStats d = none by
    exact hgen initAgg (by simp [initAgg, alookup])
  induction records with
  | nil => intro st hst; simpa using hst
  | cons r rest ih =>
    intro st hst
    simp only [List.foldl_cons]
    have hr : r.date ≠ d := h r (by simp)
    refine ih (fun r' hr' => h r' (by simp [hr'])) _ ?_
    simp only [aggStep]
    rw [alookup_bumpDG_ne _ _ _ _ _ hr]
    exact hst

/-- The running duck/goose totals of the species scan stay
non-negative: only parsed values `> 0` are ever added. -/
theorem speciesScan_nonneg (ctx : SheetCtx) (row : List (String × String)) :
    0 ≤ (speciesScan ctx row).1 ∧ 0 ≤ (speciesScan ctx row).2.1 := by
  unfold speciesScan
  suffices hgen : ∀ (cols : List String) (acc : ℚ × ℚ × List (String × ℚ)),
      0 ≤ acc.1 → 0 ≤ acc.2.1 →
      0 ≤ (cols.foldl (fun acc name =>
        let value := parseFloatD (cellOf row name)
        if 0 < value then
          let kills' := objInsert acc.2.2 name value
          if containsStr (lowerS name) "geese" then (acc.1, acc.2.1 + value, kills')
          else (acc.1 + value, acc.2.1, kills')
        else acc) acc).1 ∧
      0 ≤ (cols.foldl (fun acc name =>
        let value := parseFloatD (cellOf row name)
        if 0 < value then
          let kills' := objInsert acc.2.2 name value
          if containsStr (lowerS name) "geese" then (acc.1, acc.2.1 + value, kills')
          else (acc.1 + value, acc.2.1, kills')
        else acc) acc).2.1 by
    exact hgen ctx.speciesCols (0, 0, []) le_rfl le_rfl
  intro cols
  induction cols with
  | nil => intro acc h1 h2; exact ⟨h1, h2⟩
  | cons name rest ih =>
    intro acc h1 h2
    simp only [List.foldl_cons]
    by_cases hv : 0 < parseFloatD (cellOf row name)
    · by_cases hg : containsStr (lowerS name) "geese" = true
      · simp only [hv, if_true, hg]
        exact ih _ (by simpa using h1) (by positivity)
      · simp only [Bool.not_eq_true] at hg
        simp only [hv, if_true, hg, Bool.false_eq_true, if_false]
        exact ih _ (by positivity) (by simpa using h2)
    · simp only [hv, if_false]
      exact ih acc h1 h2

/-- Inversion of a successful row extraction: the skip tests failed, the
not-all-zero test failed, and the record is the constructed literal. -/
theorem extractRow_inv (ctx : SheetCtx) (row : List (String × String))
    (r : HuntRecord) (h : extractRow ctx row = some r) :
    ¬((speciesScan ctx row).1 = 0 ∧ (speciesScan ctx row).2.1 = 0 ∧
      parseFloatD (cellOpt row ctx.gunsH) = 0) ∧
    r = { date := ctx.date
          member := jsTrim (cellOpt row ctx.memberH)
          guide := jsTrim (cellOpt row ctx.guideH)
          blind := if jsTrim (cellOpt row ctx.blindH) = "" then "Unknown"
                   else jsTrim (cellOpt row ctx.blindH)
          guns := parseFloatD (cellOpt row ctx.gunsH)
          condition := ctx.condition
          totalDucks := (speciesScan ctx row).1
          totalGeese := (speciesScan ctx row).2.1
          speciesKills := (speciesScan ctx row).2.2
          totalMallards := recordMallards ctx.headers row } := by
  unfold extractRow at h
  by_cases h1 : skipMember (jsTrim (cellOpt row ctx.memberH)) = true
  · simp [h1] at h
  · simp only [Bool.not_eq_true] at h1
    simp only [h1, Bool.false_eq_true, if_false] at h
    by_cases h2 : (speciesScan ctx row).1 = 0 ∧ (speciesScan ctx row).2.1 = 0 ∧
        parseFloatD (cellOpt row ctx.gunsH) = 0
    · simp [h2] at h
    · simp only [h2, if_false, Option.some.injEq] at h
      exact ⟨h2, h.symm⟩

/-- Membership in the extracted record list comes from one row of one
sheet. -/
theorem mem_extractRecords (sheets : List Sheet) (r : HuntRecord)
    (h : r ∈ extractRecords sheets) :
    ∃ sheet ∈ sheets, ∃ row ∈ sheet.rows, extractRow (ctxOf sheet) row = some r := by
  unfold extractRecords at h
  rw [List.mem_flatMap] at h
  obtain ⟨sheet, hs, hr⟩ := h
  rw [List.mem_filterMap] at hr
  obtain ⟨row, hrow, hex⟩ := hr
  exact ⟨sheet, hs, row, hrow, hex⟩

theorem sortDescBy_length (key : α → ℚ) (l : List α) :
    (sortDescBy key l).length = l.length :=
  sortStable_length _ l

/-! ### Claim C1 — condition filtering -/

/-- Concrete input for C1: one sheet, one valid record, sheet condition
resolves to `Unknown`, so no record has condition `Rainy`. -/
def c1Sheets : List Sheet :=
  [⟨"11_19_25", ["Member", "Sprig"], [[("Member", "b"), ("Sprig", "2")]]⟩]

/-- Claim C1 as stated is false: with the filter set to `Rainy`, which
no record has, the displayed aggregates are NOT empty and the date
trend is NOT all `DNH` — the display falls back to the unfiltered
analytics (`displayAnalytics = filteredAnalytics || analytics` with
`filteredAnalytics === null` on an empty filter result). -/
theorem claim1_counterexample :
    (∀ r ∈ extractRecords c1Sheets, r.condition ≠ "Rainy") ∧
    (displayAnalytics c1Sheets "Rainy").topMembers ≠ [] ∧
    (displayAnalytics c1Sheets "Rainy").dateTrends.map DateTrendEntry.status
      = ["hunted"] := by
  with_unfolding_all decide

/-- Claim C1 (amended): when the selected condition matches no record
the displayed result is the full unfiltered analytics; when it matches
at least one record the display re-aggregates exactly the matching
subset; and the unfiltered aggregates coincide with the filtered-path
aggregation logic applied to the full record list (the two code paths
implement the same grouping/averaging). -/
theorem claim1_filtering (sheets : List Sheet) (cond : String) :
    (filterRecords sheets cond = [] →
      displayAnalytics sheets cond = analyticsView sheets) ∧
    (filterRecords sheets cond ≠ [] →
      displayAnalytics sheets cond =
        filteredView (filterRecords sheets cond) sheets) ∧
    analyticsView sheets = filteredView (extractRecords sheets) sheets := by
  refine ⟨?_, ?_, analyticsView_eq_filteredView sheets⟩
  · intro h
    simp [displayAnalytics, h]
  · intro h
    simp [displayAnalytics, h]

/-- Witness for C1: both branches of the amended claim at the concrete
input (the `Rainy` filter matches nothing; `all` keeps the record). -/
theorem claim1_witness :
    displayAnalytics c1Sheets "Rainy" = analyticsView c1Sheets ∧
    displayAnalytics c1Sheets "all" =
      filteredView (filterRecords c1Sheets "all") c1Sheets :=
  ⟨(claim1_filtering c1Sheets "Rainy").1 (by with_unfolding_all decide),
   (claim1_filtering c1Sheets "all").2.1 (by with_unfolding_all decide)⟩

/-! ### Claim C2 — dual rankings -/

/-- Concrete input for C2: ten members with total 20 (two hunts of 10
each) and one member `k` with total 15 in a single hunt, whose average
15 beats every other average. -/
def c2Rows : List (List (String × String)) :=
  (["a", "b", "c", "d", "e", "f", "g", "h", "i", "j"].flatMap
    (fun n => [[("Member", n), ("Sprig", "10")], [("Member", n), ("Sprig", "10")]])) ++
  [[("Member", "k"), ("Sprig", "15")]]

/-- C2 sheet list. -/
def c2Sheets : List Sheet := [⟨"11_19_25", ["Member", "Sprig"], c2Rows⟩]

/-- Claim C2 as stated is false: member `k` is outside the top 10 by
total but has the best average; sorting ALL member entries by average
and taking 10 would rank `k` first, yet the code sorts only the top-10
by-total slice, so `k` does not appear in `topMembersAvg`. -/
theorem claim2_counterexample :
    (analyticsView c2Sheets).topMembersAvg ≠
      ((sortDescBy Entry.average (analyticsView c2Sheets).allMembers).take 10) ∧
    "k" ∈ ((sortDescBy Entry.average (analyticsView c2Sheets).allMembers).take 10).map
      Entry.name ∧
    "k" ∉ (analyticsView c2Sheets).topMembersAvg.map Entry.name := by
  with_unfolding_all decide

/-- Claim C2 (amended): `topMembersAvg` is a permutation of the top-10
by-total slice sorted descending by average — only members already in
the top 10 by total can appear — and `topGuidesAvg` is likewise a
permutation of the top-5-by-total guide slice sorted by average. -/
theorem claim2_dual_ranking (sheets : List Sheet) :
    ((analyticsView sheets).topMembersAvg.Perm (analyticsView sheets).topMembers ∧
     SortedDescBy Entry.average (analyticsView sheets).topMembersAvg) ∧
    ((analyticsView sheets).topGuidesAvg.Perm (analyticsView sheets).topGuides ∧
     SortedDescBy Entry.average (analyticsView sheets).topGuidesAvg) := by
  have hview : analyticsView sheets =
      assemble (processSheets sheets).allRecords (processSheets sheets).agg sheets := rfl
  rw [hview]
  simp only [assemble]
  constructor
  · have hlen : (sortDescBy Entry.average
        ((buildAllMembers (processSheets sheets).allRecords
          (processSheets sheets).agg).take 10)).length ≤ 10 := by
      rw [sortDescBy_length]
      exact List.length_take_le 10 _
    rw [List.take_of_length_le hlen]
    exact ⟨sortDescBy_perm _ _, sortDescBy_sorted _ _⟩
  · exact ⟨sortDescBy_perm _ _, sortDescBy_sorted _ _⟩

/-! ### Claim C4 — record existence invariant -/

/-- Concrete input for C4: a row with no birds and `Guns` cell `-2`.
`parseFloat` keeps the negative value, the row passes the
not-all-zero test (guns ≠ 0), and the produced record has
`totalDucks + totalGeese + guns = -2`. -/
def c4BadSheets : List Sheet :=
  [⟨"11_19_25", ["Member", "Guns"], [[("Member", "b"), ("Guns", "-2")]]⟩]

/-- Claim C4 as stated is false: a record is produced whose
`totalDucks + totalGeese + guns` is not positive. -/
theorem claim4_counterexample :
    extractRecords c4BadSheets ≠ [] ∧
    ¬(∀ r ∈ extractRecords c4BadSheets,
        0 < r.totalDucks + r.totalGeese + r.guns) := by
  with_unfolding_all decide

/-- Claim C4 (amended): every produced record fails the drop test
(`totalDucks`, `totalGeese` and `guns` are not all zero), duck and
goose totals are always non-negative, and whenever the parsed guns
value is non-negative the stated strict inequality
`totalDucks + totalGeese + guns > 0` does hold; only a negative guns
cell can break it. -/
theorem claim4_record_invariant (sheets : List Sheet) (r : HuntRecord)
    (hr : r ∈ extractRecords sheets) :
    ¬(r.totalDucks = 0 ∧ r.totalGeese = 0 ∧ r.guns = 0) ∧
    0 ≤ r.totalDucks ∧ 0 ≤ r.totalGeese ∧
    (0 ≤ r.guns → 0 < r.totalDucks + r.totalGeese + r.guns) := by
  obtain ⟨sheet, -, row, -, hex⟩ := mem_extractRecords sheets r hr
  obtain ⟨hnz, hrec⟩ := extractRow_inv _ _ _ hex
  have hscan := speciesScan_nonneg (ctxOf sheet) row
  subst hrec
  refine ⟨by simpa using hnz, hscan.1, hscan.2, ?_⟩
  intro hg
  by_contra hle
  push_neg at hle
  have h1 : (speciesScan (ctxOf sheet) row).1 = 0 := le_antisymm (by linarith [hscan.2]) hscan.1
  have h2 : (speciesScan (ctxOf sheet) row).2.1 = 0 := le_antisymm (by linarith [hscan.1]) hscan.2
  have h3 : parseFloatD (cellOpt row (ctxOf sheet).gunsH) = 0 :=
    le_antisymm (by linarith [hscan.1, hscan.2]) hg
  exact hnz ⟨h1, h2, h3⟩

/-- Concrete witness input for C4: one ordinary valid row. -/
def c4Sheets : List Sheet :=
  [⟨"11_19_25", ["Member", "Sprig"], [[("Member", "b"), ("Sprig", "2")]]⟩]

/-- The record `c4Sheets` extracts. -/
def c4Record : HuntRecord :=
  ⟨"11_19_25", "b", "", "Unknown", 0, "Unknown", 2, 0, [("Sprig", 2)], 0⟩

/-- Witness for C4 at the concrete input. -/
theorem claim4_witness :
    ¬(c4Record.totalDucks = 0 ∧ c4Record.totalGeese = 0 ∧ c4Record.guns = 0) ∧
    0 ≤ c4Record.totalDucks ∧ 0 ≤ c4Record.totalGeese ∧
    (0 ≤ c4Record.guns →
      0 < c4Record.totalDucks + c4Record.totalGeese + c4Record.guns) :=
  claim4_record_invariant c4Sheets c4Record (by with_unfolding_all decide)

/-! ### Claim C5 — date trend completeness -/

/-- Concrete input for C5: one sheet literally named `Unknown`, with a
valid record.  It is one distinct sheet name, but the date axis
excludes `Unknown`, so the trend series is empty. -/
def c5BadSheets : List Sheet :=
  [⟨"Unknown", ["Member", "Sprig"], [[("Member", "b"), ("Sprig", "2")]]⟩]

/-- Claim C5 as stated is false: there is one distinct sheet name but
zero date-trend entries. -/
theorem claim5_counterexample :
    (dedupFirst (c5BadSheets.map
      (fun sheet => if sheet.name = "" then "Unknown" else sheet.name))).length = 1 ∧
    (analyticsView c5BadSheets).dateTrends.length = 0 := by
  with_unfolding_all decide

/-- Claim C5 (amended): the trend series has exactly one entry per
distinct sheet name OTHER than the literal `Unknown` (empty names
normalize to `Unknown` and are likewise excluded), and a known date
whose sheet contributed no record appears with status `DNH` and all
numeric fields at zero. -/
theorem claim5_date_trend (sheets : List Sheet) :
    (analyticsView sheets).dateTrends.length = (knownDates sheets).length ∧
    (∀ d ∈ knownDates sheets, (∀ r ∈ extractRecords sheets, r.date ≠ d) →
      ∃ e ∈ (analyticsView sheets).dateTrends,
        e.date = d ∧ e.status = "DNH" ∧ e.ducks = 0 ∧ e.geese = 0 ∧
        e.mallards = 0 ∧ e.total = 0 ∧ e.blindCount = 0) := by
  have hview : (analyticsView sheets).dateTrends =
      sortAscBy DateTrendEntry.dateSort
        ((knownDates sheets).map
          (mkDateEntry (extractRecords sheets)
            (aggRecords (extractRecords sheets)).dateStats)) := by
    rw [analyticsView_eq_filteredView]
    rfl
  constructor
  · rw [hview]
    unfold sortAscBy
    rw [sortStable_length, List.length_map]
  · intro d hd hno
    have hnone := dateStats_lookup_none (extractRecords sheets) d hno
    refine ⟨mkDateEntry (extractRecords sheets)
      (aggRecords (extractRecords sheets)).dateStats d, ?_, ?_⟩
    · rw [hview]
      unfold sortAscBy
      rw [mem_sortStable]
      exact List.mem_map_of_mem _ hd
    · simp [mkDateEntry, hnone]

/-- Concrete witness input for C5: one sheet with no rows at all. -/
def c5Sheets : List Sheet := [⟨"11_20_25", ["Member"], []⟩]

/-- Witness for C5 at the concrete input: the recordless date shows up
as a zeroed `DNH` entry and the series has one entry for one known
date. -/
theorem claim5_witness :
    (analyticsView c5Sheets).dateTrends.length = (knownDates c5Sheets).length ∧
    (∃ e ∈ (analyticsView c5Sheets).dateTrends,
      e.date = "11_20_25" ∧ e.status = "DNH" ∧ e.ducks = 0 ∧ e.geese = 0 ∧
      e.mallards = 0 ∧ e.total = 0 ∧ e.blindCount = 0) :=
  ⟨(claim5_date_trend c5Sheets).1,
   (claim5_date_trend c5Sheets).2 "11_20_25" (by with_unfolding_all decide)
     (by with_unfolding_all decide)⟩

/-! ### Claim C6 — blind/guide aggregate membership -/

/-- Concrete input for C6: a record whose guide cell is literally
`Unknown`. -/
def c6BadSheets : List Sheet :=
  [⟨"11_19_25", ["Member", "Guide", "Sprig"],
    [[("Member", "b"), ("Guide", "Unknown"), ("Sprig", "2")]]⟩]

/-- Claim C6 as stated is false: the guide aggregation only requires a
non-empty key, so a guide literally named `Unknown` receives a guide
aggregate entry. -/
theorem claim6_counterexample :
    (analyticsView c6BadSheets).topGuides.map Entry.name = ["Unknown"] := by
  with_unfolding_all decide

/-- Claim C6 (amended): blind aggregate entries always carry a
non-empty key different from `Unknown`; guide aggregate entries only
carry a non-empty key (the literal `Unknown` is NOT excluded for
guides); and a record with an unknown blind leaves the blind
accumulator untouched while still contributing to the member and
species accumulators. -/
theorem claim6_grouping (sheets : List Sheet) :
    (∀ e ∈ (analyticsView sheets).topBlinds, e.name ≠ "" ∧ e.name ≠ "Unknown") ∧
    (∀ e ∈ (analyticsView sheets).topGuides, e.name ≠ "") ∧
    (∀ (st : AggState) (r : HuntRecord), r.blind = "Unknown" →
      (aggStep st r).blindStats = st.blindStats ∧
      (aggStep st r).speciesStats = bumpKills st.speciesStats r.speciesKills ∧
      (r.member ≠ "" → (aggStep st r).memberStats =
        bumpDG st.memberStats r.member r.totalDucks r.totalGeese)) := by
  refine ⟨?_, ?_, ?_⟩
  · intro e he
    have hb : (analyticsView sheets).topBlinds =
        buildTopBlinds (processSheets sheets).allRecords (processSheets sheets).agg := rfl
    rw [hb] at he
    unfold buildTopBlinds sortDescBy at he
    rw [mem_sortStable] at he
    obtain ⟨p, hp, hpe⟩ := List.mem_map.mp he
    have hpred := (List.mem_filter.mp hp).2
    simp only [decide_eq_true_eq] at hpred
    have hname : e.name = p.1 := by rw [← hpe]; rfl
    rw [hname]
    exact hpred
  · intro e he
    have hg : (analyticsView sheets).topGuides =
        buildTopGuides (processSheets sheets).allRecords (processSheets sheets).agg := rfl
    rw [hg] at he
    unfold buildTopGuides at he
    have he2 := List.mem_of_mem_take he
    unfold sortDescBy at he2
    rw [mem_sortStable] at he2
    obtain ⟨p, hp, hpe⟩ := List.mem_map.mp he2
    have hpred := (List.mem_filter.mp hp).2
    simp only [decide_eq_true_eq] at hpred
    have hname : e.name = p.1 := by rw [← hpe]; rfl
    rw [hname]
    exact hpred
  · intro st r hblind
    refine ⟨?_, rfl, ?_⟩
    · simp [aggStep, hblind]
    · intro hm
      simp [aggStep, hm]

/-- Concrete witness input for C6: a record with blind `A` and guide
`G`. -/
def c6Sheets : List Sheet :=
  [⟨"11_19_25", ["Member", "Guide", "Blind", "Sprig"],
    [[("Member", "b"), ("Guide", "G"), ("Blind", "A"), ("Sprig", "2")]]⟩]

/-- The blind entry produced at the C6 witness input. -/
def c6BlindEntry : Entry := ⟨"A", 2, 0, 2, 2, 0, 2, 1⟩

/-- The guide entry produced at the C6 witness input. -/
def c6GuideEntry : Entry := ⟨"G", 2, 0, 2, 2, 0, 2, 1⟩

/-- A record with an unknown blind, fed to the aggregation step. -/
def c6Record : HuntRecord :=
  ⟨"11_19_25", "m", "", "Unknown", 0, "Unknown", 1, 0, [], 0⟩

/-- Witness for C6 at the concrete inputs. -/
theorem claim6_witness :
    (c6BlindEntry.name ≠ "" ∧ c6BlindEntry.name ≠ "Unknown") ∧
    (c6GuideEntry.name ≠ "") ∧
    (aggStep initAgg c6Record).blindStats = initAgg.blindStats ∧
    (aggStep initAgg c6Record).speciesStats
      = bumpKills initAgg.speciesStats c6Record.speciesKills ∧
    (aggStep initAgg c6Record).memberStats
      = bumpDG initAgg.memberStats c6Record.member c6Record.totalDucks
          c6Record.totalGeese :=
  ⟨(claim6_grouping c6Sheets).1 c6BlindEntry (by with_unfolding_all decide),
   (claim6_grouping c6Sheets).2.1 c6GuideEntry (by with_unfolding_all decide),
   ((claim6_grouping c6Sheets).2.2 initAgg c6Record (by with_unfolding_all decide)).1,
   ((claim6_grouping c6Sheets).2.2 initAgg c6Record (by with_unfolding_all decide)).2.1,
   ((claim6_grouping c6Sheets).2.2 initAgg c6Record
     (by with_unfolding_all decide)).2.2 (by with_unfolding_all decide)⟩

/-! ### The OCR text parser `parseOCRToTable`

Translated from `parseOCRData.js`.  The regular expressions of the
source are modelled by dedicated matchers; for these patterns, greedy
run-taking coincides with the backtracking regex semantics because
every quantified class is disjoint from the character that must follow
it. -/

/-- Letter test for the regex class `[A-Za-z]`. -/
def isAlphaChar (c : Char) : Bool :=
  ('a' ≤ c && c ≤ 'z') || ('A' ≤ c && c ≤ 'Z')

/-- Upper-case letter test for the class `[A-Z]`. -/
def isUpperChar (c : Char) : Bool :=
  'A' ≤ c && c ≤ 'Z'

/-- Lower-case letter test for the class `[a-z]`. -/
def isLowerChar (c : Char) : Bool :=
  'a' ≤ c && c ≤ 'z'

/-- Class `[:\s]` of the date pattern. -/
def isColonWs (c : Char) : Bool :=
  c = ':' || isWsChar c

/-- Attempt the date pattern
`(?:DATE|Date|date)[:\s]+([A-Za-z]+\s+\d+)` (with the `i` flag, any
case of `date`) at the head of `cs`, returning the capture group. -/
def tryDateAt (cs : List Char) : Option (List Char) :=
  match cs with
  | c1 :: c2 :: c3 :: c4 :: rest =>
    if lowerChar c1 = 'd' ∧ lowerChar c2 = 'a' ∧ lowerChar c3 = 't' ∧
        lowerChar c4 = 'e' then
      let sep := rest.takeWhile isColonWs
      let rest1 := rest.dropWhile isColonWs
      if sep = [] then none
      else
        let letters := rest1.takeWhile isAlphaChar
        let rest2 := rest1.dropWhile isAlphaChar
        if letters = [] then none
        else
          let ws := rest2.takeWhile isWsChar
          let rest3 := rest2.dropWhile isWsChar
          if ws = [] then none
          else
            let digits := rest3.takeWhile isDigitChar
            if digits = [] then none
            else some (letters ++ ws ++ digits)
    else none
  | _ => none

/-- Search the date pattern anywhere in the line (the semantics of
`line.match(datePattern)`), leftmost match first. -/
def dateSearch : List Char → Option String
  | [] => none
  | c :: rest =>
    match tryDateAt (c :: rest) with
    | some cap => some ⟨cap⟩
    | none => dateSearch rest

/-- The record-type pattern `/Record|record|Waterfowl|Matec|Hunting/i`
as a case-insensitive substring test. -/
def recordTest (line : String) : Bool :=
  let lower := lowerS line
  containsStr lower "record" || containsStr lower "waterfowl" ||
  containsStr lower "matec" || containsStr lower "hunting"

/-- The numbered-line pattern `^(\d+)\s+(.+)$`: digits, whitespace,
and a non-empty remainder, returning both captures. -/
def numberedMatch (cs : List Char) : Option (String × String) :=
  let ds := cs.takeWhile isDigitChar
  let rest := cs.dropWhile isDigitChar
  if ds = [] then none
  else
    let ws := rest.takeWhile isWsChar
    let rest2 := rest.dropWhile isWsChar
    if ws = [] then none
    else if rest2 = [] then none
    else some (⟨ds⟩, ⟨rest2⟩)

/-- The key-value pattern `^([^:]+):\s*(.+)$`: a non-empty prefix
without colons, a colon, optional whitespace, and a non-empty value.
(On the trimmed lines this is applied to, a line cannot end in
whitespace, so dropping all leading value whitespace is exact.) -/
def kvMatch (cs : List Char) : Option (String × String) :=
  let before := cs.takeWhile (fun c => ¬ c = ':')
  let rest := cs.dropWhile (fun c => ¬ c = ':')
  match rest with
  | ':' :: after =>
    if before = [] then none
    else
      let value := after.dropWhile isWsChar
      if value = [] then none else some (⟨before⟩, ⟨value⟩)
  | _ => none

/-- The bare-name pattern `^[A-Z][a-z]+\s+[A-Z][a-z]+` as a prefix
test. -/
def nameTest (cs : List Char) : Bool :=
  match cs with
  | c :: rest =>
    isUpperChar c &&
    (let low := rest.takeWhile isLowerChar
     let r1 := rest.dropWhile isLowerChar
     !low.isEmpty &&
     (let ws := r1.takeWhile isWsChar
      let r2 := r1.dropWhile isWsChar
      !ws.isEmpty &&
      (match r2 with
       | d :: rest2 => isUpperChar d && !(rest2.takeWhile isLowerChar).isEmpty
       | [] => false)))
  | [] => false

/-- Does the line start with a digit (`line.match(/^\d/)`)? -/
def startsDigit (cs : List Char) : Bool :=
  match cs with
  | c :: _ => isDigitChar c
  | [] => false

/-- The `currentSection` state of the line scan. -/
inductive ScanSection where
  | members
  | guide
  | weather
  | totals
  deriving DecidableEq, Repr

/-- State accumulated by the heuristic line scan (source lines
50–57). -/
structure ScanState where
  foundDate : Option String
  foundRecordType : Option String
  members : List (List (String × String))
  guide : List (List (String × String))
  keyValuePairs : List (List (String × String))
  currentSection : Option ScanSection
  deriving DecidableEq, Repr

/-- Initial scan state. -/
def initScan : ScanState := ⟨none, none, [], [], [], none⟩

/-- One iteration of the heuristic scan loop (source lines 60–134), in
the priority order of the source: date pattern, record pattern, section
headers, numbered line, key-value line, bare name in a member/guide
section.  The unstructured `otherData` collector is unused by every
return path and is not modelled. -/
def scanLine (st : ScanState) (line : String) : ScanState :=
  match dateSearch line.data with
  | some cap => { st with foundDate := some cap }
  | none =>
    if recordTest line then { st with foundRecordType := some line }
    else if containsStr (lowerS line) "member" then
      { st with currentSection := some ScanSection.members }
    else if containsStr (lowerS line) "guide" then
      { st with currentSection := some ScanSection.guide }
    else if containsStr (lowerS line) "weather" ||
        containsStr (lowerS line) "condition" then
      { st with currentSection := some ScanSection.weather }
    else if containsStr (lowerS line) "day total" ||
        containsStr (lowerS line) "total" then
      { st with currentSection := some ScanSection.totals }
    else
      match numberedMatch line.data with
      | some (number, name) =>
        match st.currentSection with
        | some ScanSection.members =>
          { st with members := st.members ++ [[("Number", number), ("Name", name)]] }
        | some ScanSection.guide =>
          { st with guide := st.guide ++ [[("Number", number), ("Name", name)]] }
        | _ =>
          { st with members := st.members ++ [[("Number", number), ("Name", name)]] }
      | none =>
        match kvMatch line.data with
        | some (k, v) =>
          { st with keyValuePairs :=
              st.keyValuePairs ++ [[("Key", jsTrim k), ("Value", jsTrim v)]] }
        | none =>
          if st.currentSection = some ScanSection.members ∨
              st.currentSection = some ScanSection.guide then
            if nameTest line.data && !startsDigit line.data then
              if st.currentSection = some ScanSection.members then
                { st with members := st.members ++ [[("Number", ""), ("Name", line)]] }
              else
                { st with guide := st.guide ++ [[("Number", ""), ("Name", line)]] }
            else st
          else st

/-- Run the scan over all lines. -/
def scanLines (lines : List String) : ScanState :=
  lines.foldl scanLine initScan

/-- Metadata of a `ParsedTable`. -/
structure Metadata where
  date : Option String
  recordType : Option String
  /-- The `section` property of the source (a Lean keyword). -/
  sectionLabel : Option String
  deriving DecidableEq, Repr

/-- The parser output.  `metadata := none` models the one return path
(empty input) whose object literal carries no `metadata` property at
all. -/
structure ParsedTable where
  headers : List String
  rows : List (List (String × String))
  metadata : Option Metadata
  deriving DecidableEq, Repr

/-- Result selection after the scan (source lines 137–170): members
first, then guide, then key-value pairs. -/
def heuristicResult (st : ScanState) : Option ParsedTable :=
  if st.members ≠ [] then
    some ⟨["Number", "Name"], st.members,
      some ⟨st.foundDate, st.foundRecordType, some "Members"⟩⟩
  else if st.guide ≠ [] then
    some ⟨["Number", "Name"], st.guide,
      some ⟨st.foundDate, st.foundRecordType, some "Guide"⟩⟩
  else if st.keyValuePairs ≠ [] then
    some ⟨["Key", "Value"], st.keyValuePairs,
      some ⟨st.foundDate, st.foundRecordType, none⟩⟩
  else none

/-- Number of pipe characters (`(line.match(/\|/g) || []).length`). -/
def pipeCount (cs : List Char) : Nat :=
  (cs.filter (fun c => c = '|')).length

theorem dropWhile_length_le (p : α → Bool) :
    ∀ l : List α, (l.dropWhile p).length ≤ l.length
  | [] => by simp
  | x :: xs => by
    simp only [List.dropWhile]
    split
    · exact le_trans (dropWhile_length_le p xs) (Nat.le_succ _)
    · simp

/-- Split on runs of two or more whitespace characters
(`line.split(/\s{2,}/)`): a single whitespace character stays inside
its piece. -/
def splitWs2Go : List Char → List Char → List String
  | [], cur => [⟨cur.reverse⟩]
  | [c], cur => [⟨(c :: cur).reverse⟩]
  | c1 :: c2 :: rest, cur =>
    if isWsChar c1 && isWsChar c2 then
      ⟨cur.reverse⟩ :: splitWs2Go ((c2 :: rest).dropWhile isWsChar) []
    else splitWs2Go (c2 :: rest) (c1 :: cur)
termination_by cs _ => cs.length
decreasing_by
  · exact Nat.lt_succ_of_le (dropWhile_length_le _ _)
  · simp

/-- Split a string on runs of two or more whitespace characters. -/
def splitWs2 (cs : List Char) : List String :=
  splitWs2Go cs []

/-- The candidate-table-line test (source lines 173–177): at least two
pipes, or at least two pieces under the double-space split. -/
def isTableLine (line : String) : Bool :=
  pipeCount line.data ≥ 2 || (splitWs2 line.data).length ≥ 2

/-- Column split of a candidate line (source lines 180–185): by pipe
when the line contains any pipe, else by double-space runs; pieces are
trimmed and empty pieces dropped. -/
def splitCols (line : String) : List String :=
  if line.data.contains '|' then
    ((splitChar '|' line).map jsTrim).filter (fun piece => piece ≠ "")
  else
    ((splitWs2 line.data).map jsTrim).filter (fun piece => piece ≠ "")

/-- Find the first element satisfying `p` together with the elements
after it (`findIndex` followed by `slice(idx + 1)`). -/
def splitAtFirst (p : α → Bool) : List α → Option (α × List α)
  | [] => none
  | x :: xs => if p x then some (x, xs) else splitAtFirst p xs

/-- Zip one data row against the header row positionally
(`headers.forEach((header, idx) => obj[header] = row[idx] || '')`). -/
def zipRowGo : List String → List String → List (String × String) →
    List (String × String)
  | [], _, acc => acc
  | h :: hs, vals, acc =>
    let v := match vals with
      | [] => ""
      | v0 :: _ => v0
    zipRowGo hs (vals.drop 1) (objInsert acc h v)

/-- Does the zipped row keep any non-blank value
(`Object.values(row).some(v => v && v.trim().length > 0)`)? -/
def rowHasValue (row : List (String × String)) : Bool :=
  row.any (fun p => p.2 ≠ "" && jsTrim p.2 ≠ "")

/-- Strategy 3, delimiter-based table detection (source lines
172–209). -/
def tablePath (st : ScanState) (lines : List String) : Option ParsedTable :=
  let tableLines := lines.filter isTableLine
  if tableLines = [] then none
  else
    let parsedRows := tableLines.map splitCols
    let maxCols := (parsedRows.map List.length).foldl max 0
    match splitAtFirst (fun row => row.length = maxCols) parsedRows with
    | some (headers, after) =>
      if headers.length > 1 then
        some ⟨headers,
          (after.map (fun row => zipRowGo headers row [])).filter rowHasValue,
          some ⟨st.foundDate, st.foundRecordType, none⟩⟩
      else none
    | none => none

/-- One step of the fallback structured reconstruction (source lines
215–231): a key-value or numbered line flushes the current row and
starts a new one; any other line is appended as a positionally named
`FieldN` value. -/
def structStep (acc : List (List (String × String)) × List (String × String))
    (line : String) :
    List (List (String × String)) × List (String × String) :=
  match kvMatch line.data with
  | some (k, v) =>
    if acc.2 ≠ [] then (acc.1 ++ [acc.2], [(jsTrim k, jsTrim v)])
    else (acc.1, [(jsTrim k, jsTrim v)])
  | none =>
    match numberedMatch line.data with
    | some (number, name) =>
      if acc.2 ≠ [] then (acc.1 ++ [acc.2], [("Number", number), ("Name", name)])
      else (acc.1, [("Number", number), ("Name", name)])
    | none =>
      (acc.1, objInsert acc.2 ("Field" ++ toString (acc.2.length + 1)) line)

/-- Strategy 4, fallback structured reconstruction (source lines
211–248), with the union of keys in first-seen order as headers. -/
def structPath (st : ScanState) (lines : List String) : Option ParsedTable :=
  let folded := lines.foldl structStep ([], [])
  let structuredRows := if folded.2 ≠ [] then folded.1 ++ [folded.2] else folded.1
  if structuredRows ≠ [] then
    some ⟨dedupFirst (structuredRows.flatMap (fun row => row.map Prod.fst)),
      structuredRows, some ⟨st.foundDate, st.foundRecordType, none⟩⟩
  else none

/-- Strategy 5, the final per-line fallback (source lines 250–258). -/
def finalPath (st : ScanState) (lines : List String) : ParsedTable :=
  ⟨["Content"], lines.map (fun line => [("Content", line)]),
   some ⟨st.foundDate, st.foundRecordType, none⟩⟩

/-- Non-empty trimmed lines of the input (source line 42). -/
def nonEmptyLines (s : String) : List String :=
  ((splitChar '\n' s).map jsTrim).filter (fun line => line ≠ "")

/-! ### A model of `JSON.parse` / `JSON.stringify`

The JSON fast path of the parser calls the JS built-ins.  `Json` is
the value model; `jsonParse` is a fuel-based recursive-descent parser
over the standard JSON grammar (strings with the standard escapes,
numbers as exact rationals, arrays, objects, literals).  Modelling
remarks: raw control characters in strings are rejected as
`JSON.parse` does; the leading-zero restriction on numbers and the
float rounding of JS numbers are not modelled (no claim feeds such
input); duplicate object keys are kept in the field list and property
access reads the last one, matching the `JSON.parse` collapse. -/

inductive Json where
  | null : Json
  | bool (b : Bool) : Json
  | num (q : ℚ) : Json
  | str (s : String) : Json
  | arr (elems : List Json) : Json
  | obj (fields : List (String × Json)) : Json

/-- Skip JSON insignificant whitespace (space, tab, LF, CR). -/
def skipWsJ (cs : List Char) : List Char :=
  cs.dropWhile isWsChar

/-- Hex digit value for `\uXXXX` escapes. -/
def hexVal (c : Char) : Option Nat :=
  if isDigitChar c then some (c.toNat - '0'.toNat)
  else if 'a' ≤ c ∧ c ≤ 'f' then some (c.toNat - 'a'.toNat + 10)
  else if 'A' ≤ c ∧ c ≤ 'F' then some (c.toNat - 'A'.toNat + 10)
  else none

/-- Single-character JSON escapes. -/
def escChar (c : Char) : Option Char :=
  if c = '"' then some '"'
  else if c = '\\' then some '\\'
  else if c = '/' then some '/'
  else if c = 'n' then some '\n'
  else if c = 't' then some '\t'
  else if c = 'r' then some '\r'
  else if c = 'b' then some (Char.ofNat 8)
  else if c = 'f' then some (Char.ofNat 12)
  else none

/-- Parse the body of a JSON string after the opening quote, returning
the decoded characters and the input after the closing quote. -/
def pStrBody : List Char → Option (List Char × List Char)
  | [] => none
  | c :: rest =>
    if c = '"' then some ([], rest)
    else if c = '\\' then
      match rest with
      | 'u' :: h1 :: h2 :: h3 :: h4 :: rest2 =>
        (match hexVal h1, hexVal h2, hexVal h3, hexVal h4 with
         | some a, some b, some c2, some d =>
           (pStrBody rest2).map
             (fun p => (Char.ofNat (((a * 16 + b) * 16 + c2) * 16 + d) :: p.1, p.2))
         | _, _, _, _ => none)
      | c2 :: rest2 =>
        (match escChar c2 with
         | some ch => (pStrBody rest2).map (fun p => (ch :: p.1, p.2))
         | none => none)
      | [] => none
    else if c.toNat < 32 then none
    else (pStrBody rest).map (fun p => (c :: p.1, p.2))

/-- Parse a JSON number (optional sign, digits, optional fraction,
optional exponent) into an exact rational. -/
def pNum (cs : List Char) : Option (ℚ × List Char) :=
  let sign : Int := match cs with | '-' :: _ => -1 | _ => 1
  let cs1 := match cs with | '-' :: r => r | _ => cs
  let ip := cs1.takeWhile isDigitChar
  let r1 := cs1.dropWhile isDigitChar
  if ip = [] then none
  else
    let fr : List Char × List Char := match r1 with
      | '.' :: r => (r.takeWhile isDigitChar, r.dropWhile isDigitChar)
      | _ => ([], r1)
    let fp := fr.1
    let r2 := fr.2
    if (match r1 with | '.' :: _ => fp.isEmpty | _ => false) then none
    else
      let base : ℚ :=
        Rat.divInt (sign * ((digitsVal ip : Int) * (10 : Int) ^ fp.length +
          (digitsVal fp : Int))) ((10 : Int) ^ fp.length)
      match r2 with
      | 'e' :: r4 | 'E' :: r4 =>
        let esign : Bool := match r4 with | '-' :: _ => true | _ => false
        let r5 := match r4 with | '-' :: r => r | '+' :: r => r | _ => r4
        let ed := r5.takeWhile isDigitChar
        if ed = [] then none
        else if esign then
          some (base / ((10 : ℚ) ^ digitsVal ed), r5.dropWhile isDigitChar)
        else
          some (base * ((10 : ℚ) ^ digitsVal ed), r5.dropWhile isDigitChar)
      | _ => some (base, r2)

mutual

/-- Parse one JSON value; the fuel decreases on every recursive call
and `2 * input length + 2` always suffices. -/
def pValue : Nat → List Char → Option (Json × List Char)
  | 0, _ => none
  | fuel + 1, cs =>
    match skipWsJ cs with
    | '\x7b' :: rest =>
      (match skipWsJ rest with
       | '\x7d' :: r2 => some (Json.obj [], r2)
       | r2 => (pFields fuel r2).map (fun p => (Json.obj p.1, p.2)))
    | '[' :: rest =>
      (match skipWsJ rest with
       | ']' :: r2 => some (Json.arr [], r2)
       | r2 => (pItems fuel r2).map (fun p => (Json.arr p.1, p.2)))
    | '"' :: rest => (pStrBody rest).map (fun p => (Json.str ⟨p.1⟩, p.2))
    | 'n' :: 'u' :: 'l' :: 'l' :: rest => some (Json.null, rest)
    | 't' :: 'r' :: 'u' :: 'e' :: rest => some (Json.bool true, rest)
    | 'f' :: 'a' :: 'l' :: 's' :: 'e' :: rest => some (Json.bool false, rest)
    | cs2 => (pNum cs2).map (fun p => (Json.num p.1, p.2))

/-- Parse the comma-separated items of a non-empty array, consuming the
closing bracket. -/
def pItems : Nat → List Char → Option (List Json × List Char)
  | 0, _ => none
  | fuel + 1, cs =>
    match pValue fuel cs with
    | none => none
    | some (v, r) =>
      match skipWsJ r with
      | ',' :: r2 => (pItems fuel r2).map (fun p => (v :: p.1, p.2))
      | ']' :: r2 => some ([v], r2)
      | _ => none

/-- Parse the fields of a non-empty object, consuming the closing
brace. -/
def pFields : Nat → List Char → Option (List (String × Json) × List Char)
  | 0, _ => none
  | fuel + 1, cs =>
    match cs with
    | '"' :: rest =>
      (match pStrBody rest with
       | none => none
       | some (k, r) =>
         match skipWsJ r with
         | ':' :: r2 =>
           (match pValue fuel r2 with
            | none => none
            | some (v, r3) =>
              match skipWsJ r3 with
              | ',' :: r4 =>
                (pFields fuel (skipWsJ r4)).map
                  (fun p => ((⟨k⟩, v) :: p.1, p.2))
              | '\x7d' :: r4 => some ([(⟨k⟩, v)], r4)
              | _ => none)
         | _ => none)
    | _ => none

end

/-- Model of `JSON.parse`: parse one value and require only whitespace
after it. -/
def jsonParse (s : String) : Option Json :=
  match pValue (2 * s.data.length + 2) s.data with
  | some (v, rest) => if skipWsJ rest = [] then some v else none
  | none => none

/-- Model of the implicit JS string coercion `String(x)` for the value
shapes that reach it.  Non-string JSON leaves (numbers, booleans,
`null`) render as JS does for integers and literals; array and object
rendering, which no claim exercises, is represented by fixed
placeholders. -/
def jsDisplayString : Json → String
  | Json.null => "null"
  | Json.bool true => "true"
  | Json.bool false => "false"
  | Json.num q => if q.den = 1 then toString q.num else toString q.num ++ "/" ++ toString q.den
  | Json.str s => s
  | Json.arr _ => "[array]"
  | Json.obj _ => "[object Object]"

/-- JS truthiness of a JSON value. -/
def jsonTruthy : Json → Bool
  | Json.null => false
  | Json.bool b => b
  | Json.num q => decide (q ≠ 0)
  | Json.str s => decide (s ≠ "")
  | Json.arr _ => true
  | Json.obj _ => true

/-- Property access on a parsed JSON object; with duplicate keys
`JSON.parse` keeps the last occurrence. -/
def jlookup (fields : List (String × Json)) (k : String) : Option Json :=
  (fields.reverse.find? (fun p => p.1 = k)).map (fun p => p.2)

/-- A string-valued metadata property, `none` for a missing or
non-string value. -/
def strField (fields : List (String × Json)) (k : String) : Option String :=
  match jlookup fields k with
  | some (Json.str s) => some s
  | _ => none

/-- The `parsed.metadata || {}` pass-through: a missing or falsy value
gives the empty metadata object, an object passes its string fields
through. -/
def metaOfJson (m : Option Json) : Metadata :=
  match m with
  | some j =>
    if jsonTruthy j then
      match j with
      | Json.obj fs => ⟨strField fs "date", strField fs "recordType", strField fs "section"⟩
      | _ => ⟨none, none, none⟩
    else ⟨none, none, none⟩
  | none => ⟨none, none, none⟩

/-- Cell coercion for row values: `null` (reached through `?? ''` for
array rows and rendered blank for object rows) becomes the empty
string, other values their display string. -/
def coerceCell : Json → String
  | Json.null => ""
  | j => jsDisplayString j

/-- Positional alignment of an array row against the headers
(`headers.forEach((h, idx) => obj[h] = row[idx] ?? '')`). -/
def alignRowGo : List Json → List Json → List (String × String) →
    List (String × String)
  | [], _, acc => acc
  | h :: hs, vals, acc =>
    let v := match vals with
      | [] => ""
      | v0 :: _ => coerceCell v0
    alignRowGo hs (vals.drop 1) (objInsert acc (jsDisplayString h) v)

/-- One row of the JSON fast path (source lines 16–29): array rows are
aligned positionally, object rows are used as-is, anything else becomes
a single `Value` field. -/
def jsonRowToRow (headers : List Json) (row : Json) : List (String × String) :=
  match row with
  | Json.arr vals => alignRowGo headers vals []
  | Json.obj fields => fields.map (fun p => (p.1, coerceCell p.2))
  | other => [("Value", jsDisplayString other)]

/-- Accept a parsed JSON value as a table when it is an object with
array `headers` and `rows` (source lines 14–35). -/
def jsonTableOf (v : Json) : Option ParsedTable :=
  match v with
  | Json.obj fields =>
    (match jlookup fields "headers", jlookup fields "rows" with
     | some (Json.arr hs), some (Json.arr rs) =>
       some ⟨hs.map jsDisplayString, rs.map (jsonRowToRow hs),
         some (metaOfJson (jlookup fields "metadata"))⟩
     | _, _ => none)
  | _ => none

/-- Strategy 1, the JSON fast path (source lines 10–40): only attempted
when the trimmed input starts with a brace; a parse failure or a value
without array `headers`/`rows` falls through silently. -/
def jsonFastPath (s : String) : Option ParsedTable :=
  match (jsTrim s).data with
  | '\x7b' :: _ =>
    (match jsonParse (jsTrim s) with
     | some v => jsonTableOf v
     | none => none)
  | _ => none

/-- The full parser (source lines 5–258): empty input short-circuits
with a bare `{headers: [], rows: []}` carrying no metadata property;
otherwise the strategies run in order and the first success wins. -/
def parseOCRToTable (s : String) : ParsedTable :=
  if s = "" then ⟨[], [], none⟩
  else
    match jsonFastPath s with
    | some t => t
    | none =>
      let lines := nonEmptyLines s
      let st := scanLines lines
      match heuristicResult st with
      | some t => t
      | none =>
        match tablePath st lines with
        | some t => t
        | none =>
          match structPath st lines with
          | some t => t
          | none => finalPath st lines

/-! ### Inversion lemmas for the parser stages -/

theorem heuristicResult_rows_ne_nil (st : ScanState) (t : ParsedTable)
    (h : heuristicResult st = some t) : t.rows ≠ [] := by
  simp only [heuristicResult] at h
  repeat' split at h
  all_goals first
    | exact Option.noConfusion h
    | (rw [Option.some.injEq] at h; subst h; simp_all)

theorem structPath_rows_ne_nil (st : ScanState) (lines : List String)
    (t : ParsedTable) (h : structPath st lines = some t) : t.rows ≠ [] := by
  simp only [structPath] at h
  repeat' split at h
  all_goals first
    | exact Option.noConfusion h
    | (rw [Option.some.injEq] at h; subst h; simp_all)

theorem heuristicResult_metadata (st : ScanState) (t : ParsedTable)
    (h : heuristicResult st = some t) : t.metadata ≠ none := by
  simp only [heuristicResult] at h
  repeat' split at h
  all_goals first
    | exact Option.noConfusion h
    | (rw [Option.some.injEq] at h; subst h; simp)

theorem tablePath_metadata (st : ScanState) (lines : List String)
    (t : ParsedTable) (h : tablePath st lines = some t) : t.metadata ≠ none := by
  simp only [tablePath] at h
  repeat' split at h
  all_goals first
    | exact Option.noConfusion h
    | (rw [Option.some.injEq] at h; subst h; simp)

theorem structPath_metadata (st : ScanState) (lines : List String)
    (t : ParsedTable) (h : structPath st lines = some t) : t.metadata ≠ none := by
  simp only [structPath] at h
  repeat' split at h
  all_goals first
    | exact Option.noConfusion h
    | (rw [Option.some.injEq] at h; subst h; simp)

theorem jsonTableOf_metadata (v : Json) (t : ParsedTable)
    (h : jsonTableOf v = some t) : t.metadata ≠ none := by
  simp only [jsonTableOf] at h
  repeat' split at h
  all_goals first
    | exact Option.noConfusion h
    | (rw [Option.some.injEq] at h; subst h; simp)

theorem jsonFastPath_metadata (s : String) (t : ParsedTable)
    (h : jsonFastPath s = some t) : t.metadata ≠ none := by
  simp only [jsonFastPath] at h
  repeat' split at h
  all_goals first
    | exact Option.noConfusion h
    | (rename_i v heq; exact jsonTableOf_metadata v t h)

/-! ### Claim C8 — Scenario C -/

/-- Claim C8 (confirmed): the OCR text of Scenario C parses to the
member table with the date metadata. -/
theorem claim8_scenario_c :
    parseOCRToTable "DATE: November 16\nMembers\n1 John Smith\n2 Jane Doe" =
      ⟨["Number", "Name"],
       [[("Number", "1"), ("Name", "John Smith")],
        [("Number", "2"), ("Name", "Jane Doe")]],
       some ⟨some "November 16", none, some "Members"⟩⟩ := by
  with_unfolding_all decide

/-! ### Claim C10 — metadata on the empty-input path -/

/-- Claim C10 (confirmed): the empty (falsy) input returns
`{headers: [], rows: []}` with no metadata property at all, while every
other return path carries a metadata object. -/
theorem claim10_empty_metadata :
    (parseOCRToTable "").metadata = none ∧
    (∀ s : String, s ≠ "" → (parseOCRToTable s).metadata ≠ none) := by
  refine ⟨rfl, ?_⟩
  intro s hs
  have hcases : parseOCRToTable s =
      (match jsonFastPath s with
       | some t => t
       | none =>
         match heuristicResult (scanLines (nonEmptyLines s)) with
         | some t => t
         | none =>
           match tablePath (scanLines (nonEmptyLines s)) (nonEmptyLines s) with
           | some t => t
           | none =>
             match structPath (scanLines (nonEmptyLines s)) (nonEmptyLines s) with
             | some t => t
             | none =>
               finalPath (scanLines (nonEmptyLines s)) (nonEmptyLines s)) := by
    unfold parseOCRToTable
    rw [if_neg hs]
  rw [hcases]
  rcases hj : jsonFastPath s with - | t
  · simp only [hj]
    rcases hh : heuristicResult (scanLines (nonEmptyLines s)) with - | t
    · simp only [hh]
      rcases ht : tablePath (scanLines (nonEmptyLines s)) (nonEmptyLines s) with - | t
      · simp only [ht]
        rcases hp : structPath (scanLines (nonEmptyLines s)) (nonEmptyLines s) with - | t
        · simp only [hp]
          simp [finalPath]
        · simp only [hp]
          exact structPath_metadata _ _ _ hp
      · simp only [ht]
        exact tablePath_metadata _ _ _ ht
    · simp only [hh]
      exact heuristicResult_metadata _ _ hh
  · simp only [hj]
    exact jsonFastPath_metadata _ _ hj

/-- Witness for C10: a concrete non-empty input has a metadata
object. -/
theorem claim10_witness :
    (parseOCRToTable "").metadata = none ∧
    (parseOCRToTable "xyz").metadata ≠ none :=
  ⟨claim10_empty_metadata.1, claim10_empty_metadata.2 "xyz" (by decide)⟩

/-! ### Claim C3 — totality and empty results -/

/-- Claim C3 as stated is false: the single-line input `a  b` is
non-empty, yet the delimiter strategy turns its only line into a
header row with no data rows, so the result has `rows = []`. -/
theorem claim3_counterexample :
    ("a  b" : String) ≠ "" ∧ nonEmptyLines "a  b" ≠ [] ∧
    (parseOCRToTable "a  b").rows = [] := by
  with_unfolding_all decide

/-- Claim C3 (amended): the parser is total — every strategy falls
through to the per-line fallback, which never fails — but an empty row
list does not characterize empty input: `rows = []` holds exactly when
the JSON fast path returned a table with empty rows, or the delimiter
strategy fired and every residual data row was blank, or the input had
no non-empty line at all. -/
theorem claim3_empty_rows_iff (s : String) :
    (parseOCRToTable s).rows = [] ↔
      ((∃ t, jsonFastPath s = some t ∧ t.rows = []) ∨
       (jsonFastPath s = none ∧
        heuristicResult (scanLines (nonEmptyLines s)) = none ∧
        (∃ t, tablePath (scanLines (nonEmptyLines s)) (nonEmptyLines s) = some t ∧
          t.rows = [])) ∨
       (jsonFastPath s = none ∧ nonEmptyLines s = [])) := by
  have hmain : ∀ s : String, s ≠ "" → parseOCRToTable s =
      (match jsonFastPath s with
       | some t => t
       | none =>
         match heuristicResult (scanLines (nonEmptyLines s)) with
         | some t => t
         | none =>
           match tablePath (scanLines (nonEmptyLines s)) (nonEmptyLines s) with
           | some t => t
           | none =>
             match structPath (scanLines (nonEmptyLines s)) (nonEmptyLines s) with
             | some t => t
             | none =>
               finalPath (scanLines (nonEmptyLines s)) (nonEmptyLines s)) := by
    intro s hs
    unfold parseOCRToTable
    rw [if_neg hs]
  constructor
  · intro h
    by_cases hs : s = ""
    · subst hs
      exact Or.inr (Or.inr ⟨rfl, rfl⟩)
    · rw [hmain s hs] at h
      rcases hj : jsonFastPath s with - | t <;> simp only [hj] at h
      · rcases hh : heuristicResult (scanLines (nonEmptyLines s)) with - | t <;>
          simp only [hh] at h
        · rcases ht : tablePath (scanLines (nonEmptyLines s)) (nonEmptyLines s)
            with - | t <;> simp only [ht] at h
          · rcases hp : structPath (scanLines (nonEmptyLines s)) (nonEmptyLines s)
              with - | t <;> simp only [hp] at h
            · simp only [finalPath] at h
              rw [List.map_eq_nil_iff] at h
              exact Or.inr (Or.inr ⟨rfl, h⟩)
            · exact absurd h (structPath_rows_ne_nil _ _ _ hp)
          · exact Or.inr (Or.inl ⟨rfl, rfl, t, rfl, h⟩)
        · exact absurd h (heuristicResult_rows_ne_nil _ _ hh)
      · exact Or.inl ⟨t, rfl, h⟩
  · intro h
    rcases h with ⟨t, hj, ht⟩ | ⟨hj, hh, t, htab, ht⟩ | ⟨hj, hl⟩
    · have hs : s ≠ "" := by
        intro hs
        subst hs
        rw [show jsonFastPath "" = none from by with_unfolding_all decide] at hj
        exact Option.noConfusion hj
      rw [hmain s hs]
      simp only [hj]
      exact ht
    · have hs : s ≠ "" := by
        intro hs
        subst hs
        rw [show nonEmptyLines "" = [] from by with_unfolding_all decide] at htab
        rw [show tablePath (scanLines []) [] = none from by with_unfolding_all decide]
          at htab
        exact Option.noConfusion htab
      rw [hmain s hs]
      simp only [hj, hh, htab]
      exact ht
    · by_cases hs : s = ""
      · subst hs
        rfl
      · rw [hmain s hs, hl]
        rw [show scanLines [] = initScan from rfl]
        rw [show heuristicResult initScan = none from by with_unfolding_all decide]
        rw [show tablePath initScan [] = none from by with_unfolding_all decide]
        rw [show structPath initScan [] = none from by with_unfolding_all decide]
        simp only [hj]
        rfl

/-! ### A model of `JSON.stringify` on a headers/rows object

Used by the round-trip claim: the OCR text can be the JSON
serialization of a `ParsedTable`-shaped object
`{headers: [...], rows: [{...}, ...]}` with string headers and
string-valued object rows.  `JSON.stringify` emits no insignificant
whitespace and escapes quotes, backslashes and control characters;
the `\uXXXX` form for rare control characters is not modelled (the
round-trip theorem is stated for strings of plain characters). -/

/-- Escape one character as `JSON.stringify` does for the common
escapes. -/
def jsonEscapeChar (c : Char) : List Char :=
  if c = '"' then ['\\', '"']
  else if c = '\\' then ['\\', '\\']
  else if c = '\n' then ['\\', 'n']
  else if c = '\t' then ['\\', 't']
  else if c = '\r' then ['\\', 'r']
  else [c]

/-- A JSON string literal with escapes. -/
def strLit (s : String) : List Char :=
  '"' :: s.data.flatMap jsonEscapeChar ++ ['"']

/-- Comma-join serialized pieces. -/
def joinComma : List (List Char) → List Char
  | [] => []
  | [x] => x
  | x :: xs => x ++ ',' :: joinComma xs

/-- One serialized object field `"k":"v"`. -/
def fieldLit (p : String × String) : List Char :=
  strLit p.1 ++ ':' :: strLit p.2

/-- One serialized row object. -/
def objLit (row : List (String × String)) : List Char :=
  '\x7b' :: (joinComma (row.map fieldLit) ++ ['\x7d'])

/-- The serialized interior of the headers/rows object. -/
def tableBody (hs : List String) (rs : List (List (String × String))) :
    List Char :=
  strLit "headers" ++ ':' :: '[' :: (joinComma (hs.map strLit) ++
    ']' :: ',' :: (strLit "rows" ++ ':' :: '[' ::
      (joinComma (rs.map objLit) ++ [']'])))

/-- `JSON.stringify({headers: hs, rows: rs})`. -/
def stringifyTable (hs : List String) (rs : List (List (String × String))) :
    String :=
  ⟨'\x7b' :: (tableBody hs rs ++ ['\x7d'])⟩

/-- A character needing no JSON escape: not a quote, not a backslash,
not a control character. -/
def plainChar (c : Char) : Bool :=
  decide (¬ c = '"') && decide (¬ c = '\\') && decide (32 ≤ c.toNat)

/-- A string of plain characters. -/
def plainStr (s : String) : Bool :=
  s.data.all plainChar

/-- All strings of the table are plain. -/
def plainTable (hs : List String) (rs : List (List (String × String))) : Bool :=
  hs.all plainStr &&
  rs.all (fun row => row.all (fun p => plainStr p.1 && plainStr p.2))

/-! ### Round-trip lemmas -/

theorem jsonEscapeChar_plain (c : Char) (h : plainChar c = true) :
    jsonEscapeChar c = [c] := by
  simp only [plainChar, Bool.and_eq_true, decide_eq_true_eq] at h
  obtain ⟨⟨h1, h2⟩, h3⟩ := h
  have hn : ¬ c = '\n' := by
    intro hc; subst hc; simp at h3
  have ht : ¬ c = '\t' := by
    intro hc; subst hc; simp at h3
  have hr : ¬ c = '\r' := by
    intro hc; subst hc; simp at h3
  simp [jsonEscapeChar, h1, h2, hn, ht, hr]

theorem flatMap_escape_plain (cs : List Char) (h : cs.all plainChar = true) :
    cs.flatMap jsonEscapeChar = cs := by
  induction cs with
  | nil => rfl
  | cons c cs ih =>
    rw [List.all_cons, Bool.and_eq_true] at h
    rw [List.flatMap_cons, jsonEscapeChar_plain c h.1, ih h.2]
    rfl

theorem strLit_plain (s : String) (h : plainStr s = true) :
    strLit s = '"' :: (s.data ++ ['"']) := by
  unfold strLit
  rw [flatMap_escape_plain s.data h]
  simp

theorem skipWsJ_not_ws (c : Char) (cs : List Char) (h : isWsChar c = false) :
    skipWsJ (c :: cs) = c :: cs := by
  simp [skipWsJ, List.dropWhile_cons, h]

theorem pStrBody_plain (s : List Char) (rest : List Char)
    (h : s.all plainChar = true) :
    pStrBody (s ++ '"' :: rest) = some (s, rest) := by
  induction s with
  | nil =>
    show pStrBody ('"' :: rest) = some ([], rest)
    unfold pStrBody
    simp
  | cons c cs ih =>
    rw [List.all_cons, Bool.and_eq_true] at h
    have hp := h.1
    simp only [plainChar, Bool.and_eq_true, decide_eq_true_eq] at hp
    obtain ⟨⟨h1, h2⟩, h3⟩ := hp
    rw [List.cons_append]
    unfold pStrBody
    rw [if_neg h1, if_neg h2, if_neg (by omega)]
    rw [ih h.2]
    rfl

theorem pValue_quote (f : Nat) (X : List Char) :
    pValue (f + 1) ('"' :: X) =
      (pStrBody X).map (fun p => (Json.str ⟨p.1⟩, p.2)) := rfl

theorem pValue_lbrack (f : Nat) (X : List Char) :
    pValue (f + 1) ('[' :: X) =
      (match skipWsJ X with
       | ']' :: r2 => some (Json.arr [], r2)
       | r2 => (pItems f r2).map (fun p => (Json.arr p.1, p.2))) := rfl

theorem pValue_lbrace (f : Nat) (X : List Char) :
    pValue (f + 1) ('\x7b' :: X) =
      (match skipWsJ X with
       | '\x7d' :: r2 => some (Json.obj [], r2)
       | r2 => (pFields f r2).map (fun p => (Json.obj p.1, p.2))) := rfl

theorem pItems_succ (f : Nat) (cs : List Char) :
    pItems (f + 1) cs =
      (match pValue f cs with
       | none => none
       | some (v, r) =>
         match skipWsJ r with
         | ',' :: r2 => (pItems f r2).map (fun p => (v :: p.1, p.2))
         | ']' :: r2 => some ([v], r2)
         | _ => none) := rfl

theorem pFields_quote (f : Nat) (X : List Char) :
    pFields (f + 1) ('"' :: X) =
      (match pStrBody X with
       | none => none
       | some (k, r) =>
         match skipWsJ r with
         | ':' :: r2 =>
           (match pValue f r2 with
            | none => none
            | some (v, r3) =>
              match skipWsJ r3 with
              | ',' :: r4 =>
                (pFields f (skipWsJ r4)).map (fun p => ((⟨k⟩, v) :: p.1, p.2))
              | '\x7d' :: r4 => some ([(⟨k⟩, v)], r4)
              | _ => none)
         | _ => none) := rfl

theorem joinComma_cons (x : List Char) (xs : List (List Char)) :
    joinComma (x :: xs) =
      x ++ (match xs with | [] => [] | _ :: _ => ',' :: joinComma xs) := by
  cases xs <;> simp [joinComma]

theorem pValue_strLit (f : Nat) (s : String) (rest : List Char)
    (h : plainStr s = true) :
    pValue (f + 1) (strLit s ++ rest) = some (Json.str s, rest) := by
  rw [strLit_plain s h]
  rw [show ('"' :: (s.data ++ ['"'])) ++ rest = '"' :: (s.data ++ '"' :: rest) by
    simp]
  rw [pValue_quote]
  rw [pStrBody_plain s.data rest (by simpa [plainStr] using h)]
  rfl

theorem pItems_strs (hs : List String) :
    ∀ (fuel : Nat) (rest : List Char), hs ≠ [] → hs.all plainStr = true →
    hs.length + 1 ≤ fuel →
    pItems fuel (joinComma (hs.map strLit) ++ ']' :: rest) =
      some (hs.map Json.str, rest) := by
  induction hs with
  | nil => intro fuel rest hne; exact absurd rfl hne
  | cons h0 t ih =>
    intro fuel rest hne hp hf
    simp only [List.length_cons] at hf
    obtain ⟨g, rfl⟩ : ∃ g, fuel = g + 1 + 1 := ⟨fuel - 2, by omega⟩
    rw [List.all_cons, Bool.and_eq_true] at hp
    cases t with
    | nil =>
      rw [show joinComma ([h0].map strLit) = strLit h0 from rfl]
      rw [show strLit h0 ++ ']' :: rest = strLit h0 ++ (']' :: rest) from rfl]
      rw [pItems_succ]
      rw [pValue_strLit g h0 (']' :: rest) hp.1]
      rfl
    | cons h1 t1 =>
      rw [List.map_cons, joinComma_cons]
      rw [show (strLit h0 ++
          (match (h1 :: t1).map strLit with
           | [] => []
           | _ :: _ => ',' :: joinComma ((h1 :: t1).map strLit))) ++ ']' :: rest =
        strLit h0 ++
          (',' :: (joinComma ((h1 :: t1).map strLit) ++ ']' :: rest)) from by
        simp]
      rw [pItems_succ]
      rw [pValue_strLit g h0
        (',' :: (joinComma ((h1 :: t1).map strLit) ++ ']' :: rest)) hp.1]
      show (pItems (g + 1)
        (joinComma ((h1 :: t1).map strLit) ++ ']' :: rest)).map
          (fun p => (Json.str h0 :: p.1, p.2)) = _
      rw [ih (g + 1) rest (by simp) hp.2 (by simp at hf ⊢; omega)]
      rfl

theorem pValue_strArr (hs : List String) (fuel : Nat) (rest : List Char)
    (hp : hs.all plainStr = true) (hf : hs.length + 2 ≤ fuel) :
    pValue fuel ('[' :: (joinComma (hs.map strLit) ++ ']' :: rest)) =
      some (Json.arr (hs.map Json.str), rest) := by
  obtain ⟨f, rfl⟩ : ∃ f, fuel = f + 1 := ⟨fuel - 1, by omega⟩
  rw [pValue_lbrack]
  cases hs with
  | nil => rfl
  | cons h0 t =>
    have hshape : joinComma ((h0 :: t).map strLit) ++ ']' :: rest =
        '"' :: ((h0.data.flatMap jsonEscapeChar ++ ['"']) ++
          ((match t.map strLit with
            | [] => []
            | _ :: _ => ',' :: joinComma (t.map strLit)) ++ ']' :: rest)) := by
      rw [List.map_cons, joinComma_cons]
      simp [strLit]
    rw [hshape]
    show (pItems f ('"' :: ((h0.data.flatMap jsonEscapeChar ++ ['"']) ++
      ((match t.map strLit with
        | [] => []
        | _ :: _ => ',' :: joinComma (t.map strLit)) ++ ']' :: rest)))).map
        (fun p => (Json.arr p.1, p.2)) = _
    rw [← hshape]
    rw [pItems_strs (h0 :: t) f rest (by simp) hp (by simp at hf ⊢; omega)]
    rfl

theorem fields_shape (r0 : String × String) (t : List (String × String))
    (Y : List Char) :
    joinComma ((r0 :: t).map fieldLit) ++ Y =
      '"' :: (r0.1.data.flatMap jsonEscapeChar ++ '"' :: ':' ::
        (strLit r0.2 ++
          ((match t.map fieldLit with
            | [] => []
            | _ :: _ => ',' :: joinComma (t.map fieldLit)) ++ Y))) := by
  rw [List.map_cons, joinComma_cons]
  cases t.map fieldLit <;> simp [fieldLit, strLit]

theorem objs_shape (r0 : List (String × String))
    (t : List (List (String × String))) (Y : List Char) :
    joinComma ((r0 :: t).map objLit) ++ Y =
      '\x7b' :: (joinComma (r0.map fieldLit) ++ '\x7d' ::
        ((match t.map objLit with
          | [] => []
          | _ :: _ => ',' :: joinComma (t.map objLit)) ++ Y)) := by
  rw [List.map_cons, joinComma_cons]
  cases t.map objLit <;> simp [objLit]

theorem skipWsJ_fields (t0 : String × String) (t1 : List (String × String))
    (Y : List Char) :
    skipWsJ (joinComma ((t0 :: t1).map fieldLit) ++ Y) =
      joinComma ((t0 :: t1).map fieldLit) ++ Y := by
  rw [fields_shape]
  exact skipWsJ_not_ws _ _ (by decide)

theorem pFields_fields (row : List (String × String)) :
    ∀ (fuel : Nat) (rest : List Char), row ≠ [] →
    row.all (fun p => plainStr p.1 && plainStr p.2) = true →
    row.length + 1 ≤ fuel →
    pFields fuel (joinComma (row.map fieldLit) ++ '\x7d' :: rest) =
      some (row.map (fun p => (p.1, Json.str p.2)), rest) := by
  induction row with
  | nil => intro fuel rest hne; exact absurd rfl hne
  | cons r0 t ih =>
    intro fuel rest hne hp hf
    simp only [List.length_cons] at hf
    obtain ⟨g, rfl⟩ : ∃ g, fuel = g + 1 + 1 := ⟨fuel - 2, by omega⟩
    rw [List.all_cons, Bool.and_eq_true, Bool.and_eq_true] at hp
    obtain ⟨⟨hpk, hpv⟩, hpt⟩ := hp
    rw [fields_shape]
    rw [flatMap_escape_plain r0.1.data (by simpa [plainStr] using hpk)]
    rw [pFields_quote]
    rw [pStrBody_plain r0.1.data
      (':' :: (strLit r0.2 ++
        ((match t.map fieldLit with
          | [] => []
          | _ :: _ => ',' :: joinComma (t.map fieldLit)) ++ '\x7d' :: rest)))
      (by simpa [plainStr] using hpk)]
    show (match pValue (g + 1)
        (strLit r0.2 ++
          ((match t.map fieldLit with
            | [] => []
            | _ :: _ => ',' :: joinComma (t.map fieldLit)) ++ '\x7d' :: rest)) with
      | none => none
      | some (v, r3) =>
        match skipWsJ r3 with
        | ',' :: r4 =>
          (pFields (g + 1) (skipWsJ r4)).map
            (fun (p : List (String × Json) × List Char) =>
              ((String.mk r0.1.data, v) :: p.1, p.2))
        | '\x7d' :: r4 => some ([(String.mk r0.1.data, v)], r4)
        | _ => none) = _
    rw [pValue_strLit g r0.2 _ hpv]
    cases t with
    | nil => rfl
    | cons t0 t1 =>
      show (pFields (g + 1)
        (skipWsJ (joinComma ((t0 :: t1).map fieldLit) ++ '\x7d' :: rest))).map
          (fun p => ((String.mk r0.1.data, Json.str r0.2) :: p.1, p.2)) = _
      rw [skipWsJ_fields]
      rw [ih (g + 1) rest (by simp) hpt (by simp at hf ⊢; omega)]
      rfl

theorem pValue_objLit (row : List (String × String)) (fuel : Nat)
    (rest : List Char)
    (hp : row.all (fun p => plainStr p.1 && plainStr p.2) = true)
    (hf : row.length + 2 ≤ fuel) :
    pValue fuel ('\x7b' :: (joinComma (row.map fieldLit) ++ '\x7d' :: rest)) =
      some (Json.obj (row.map (fun p => (p.1, Json.str p.2))), rest) := by
  obtain ⟨f, rfl⟩ : ∃ f, fuel = f + 1 := ⟨fuel - 1, by omega⟩
  rw [pValue_lbrace]
  cases row with
  | nil => rfl
  | cons r0 t =>
    rw [fields_shape]
    show (pFields f ('"' :: (r0.1.data.flatMap jsonEscapeChar ++ '"' :: ':' ::
      (strLit r0.2 ++
        ((match t.map fieldLit with
          | [] => []
          | _ :: _ => ',' :: joinComma (t.map fieldLit)) ++ '\x7d' :: rest))))).map
        (fun p => (Json.obj p.1, p.2)) = _
    rw [← fields_shape]
    rw [pFields_fields (r0 :: t) f rest (by simp) hp (by simp at hf ⊢; omega)]
    rfl

/-- Fuel needed to parse a serialized row list. -/
def rowsFuel (rs : List (List (String × String))) : Nat :=
  (rs.map (fun r => r.length + 3)).sum + 1

theorem pItems_objs (rs : List (List (String × String))) :
    ∀ (fuel : Nat) (rest : List Char), rs ≠ [] →
    rs.all (fun row => row.all (fun p => plainStr p.1 && plainStr p.2)) = true →
    rowsFuel rs ≤ fuel →
    pItems fuel (joinComma (rs.map objLit) ++ ']' :: rest) =
      some (rs.map
        (fun row => Json.obj (row.map (fun p => (p.1, Json.str p.2)))), rest) := by
  induction rs with
  | nil => intro fuel rest hne; exact absurd rfl hne
  | cons r0 t ih =>
    intro fuel rest hne hp hf
    simp only [rowsFuel, List.map_cons, List.sum_cons] at hf
    obtain ⟨f, rfl⟩ : ∃ f, fuel = f + 1 := ⟨fuel - 1, by omega⟩
    rw [List.all_cons, Bool.and_eq_true] at hp
    rw [pItems_succ]
    rw [objs_shape]
    rw [pValue_objLit r0 f _ hp.1 (by omega)]
    cases t with
    | nil => rfl
    | cons t0 t1 =>
      show (pItems f (joinComma ((t0 :: t1).map objLit) ++ ']' :: rest)).map
        (fun p => (Json.obj (r0.map (fun p => (p.1, Json.str p.2))) :: p.1, p.2))
        = _
      rw [ih f rest (by simp) hp.2 (by simp only [rowsFuel]; omega)]
      rfl

theorem pValue_rowsArr (rs : List (List (String × String))) (fuel : Nat)
    (rest : List Char)
    (hp : rs.all (fun row => row.all (fun p => plainStr p.1 && plainStr p.2)) = true)
    (hf : rowsFuel rs + 1 ≤ fuel) :
    pValue fuel ('[' :: (joinComma (rs.map objLit) ++ ']' :: rest)) =
      some (Json.arr (rs.map
        (fun row => Json.obj (row.map (fun p => (p.1, Json.str p.2))))), rest) := by
  obtain ⟨f, rfl⟩ : ∃ f, fuel = f + 1 := ⟨fuel - 1, by omega⟩
  rw [pValue_lbrack]
  cases rs with
  | nil => rfl
  | cons r0 t =>
    rw [objs_shape]
    show (pItems f ('\x7b' :: (joinComma (r0.map fieldLit) ++ '\x7d' ::
      ((match t.map objLit with
        | [] => []
        | _ :: _ => ',' :: joinComma (t.map objLit)) ++ ']' :: rest)))).map
        (fun p => (Json.arr p.1, p.2)) = _
    rw [← objs_shape]
    rw [pItems_objs (r0 :: t) f rest (by simp) hp (by omega)]
    rfl

theorem skipWsJ_strLit_append (s : String) (Y : List Char) :
    skipWsJ (strLit s ++ Y) = strLit s ++ Y := rfl

/-- Parsing a serialized two-field object given parse equations for the
two serialized values. -/
theorem pFields_two (g : Nat) (k1 k2 : String) (v1 v2 : Json)
    (A B rest : List Char)
    (hk1 : plainStr k1 = true) (hk2 : plainStr k2 = true)
    (h1 : pValue (g + 1) A = some (v1, ',' :: (strLit k2 ++ ':' :: B)))
    (h2 : pValue g B = some (v2, '\x7d' :: rest)) :
    pFields (g + 1 + 1) (strLit k1 ++ ':' :: A) =
      some ([(k1, v1), (k2, v2)], rest) := by
  rw [show strLit k1 ++ ':' :: A = '"' :: (k1.data ++ '"' :: ':' :: A) from by
    rw [strLit_plain k1 hk1]; simp]
  rw [pFields_quote]
  rw [pStrBody_plain k1.data (':' :: A) (by simpa [plainStr] using hk1)]
  show (match pValue (g + 1) A with
    | none => none
    | some (v, r3) =>
      match skipWsJ r3 with
      | ',' :: r4 =>
        (pFields (g + 1) (skipWsJ r4)).map
          (fun (p : List (String × Json) × List Char) =>
            ((String.mk k1.data, v) :: p.1, p.2))
      | '\x7d' :: r4 => some ([(String.mk k1.data, v)], r4)
      | _ => none) = _
  rw [h1]
  show (pFields (g + 1) (skipWsJ (strLit k2 ++ ':' :: B))).map
    (fun (p : List (String × Json) × List Char) =>
      ((String.mk k1.data, v1) :: p.1, p.2)) = _
  rw [skipWsJ_strLit_append]
  rw [show strLit k2 ++ ':' :: B = '"' :: (k2.data ++ '"' :: ':' :: B) from by
    rw [strLit_plain k2 hk2]; simp]
  obtain ⟨g', rfl⟩ : ∃ g', g = g' + 1 := by
    cases g with
    | zero => exact absurd h2 (by rw [show pValue 0 B = none from rfl]; simp)
    | succ n => exact ⟨n, rfl⟩
  rw [pFields_quote]
  rw [pStrBody_plain k2.data (':' :: B) (by simpa [plainStr] using hk2)]
  show ((match pValue (g' + 1) B with
    | none => none
    | some (v, r3) =>
      match skipWsJ r3 with
      | ',' :: r4 =>
        (pFields (g' + 1) (skipWsJ r4)).map
          (fun (p : List (String × Json) × List Char) =>
            ((String.mk k2.data, v) :: p.1, p.2))
      | '\x7d' :: r4 => some ([(String.mk k2.data, v)], r4)
      | _ => none)).map
      (fun (p : List (String × Json) × List Char) =>
        ((String.mk k1.data, v1) :: p.1, p.2)) = _
  rw [h2]
  rfl

theorem joinComma_len_ge (ls : List (List Char)) :
    ls.length ≤ (joinComma ls).length + 1 := by
  induction ls with
  | nil => simp [joinComma]
  | cons x xs ih =>
    cases xs with
    | nil => simp only [joinComma, List.length_cons, List.length_nil]; omega
    | cons y ys =>
      simp only [joinComma, List.length_cons, List.length_append] at *
      omega

theorem row_len_le (r : List (String × String)) :
    r.length ≤ (joinComma (r.map fieldLit)).length + 1 := by
  have h := joinComma_len_ge (r.map fieldLit)
  simpa using h

theorem rowsFuel_le (rs : List (List (String × String))) :
    rowsFuel rs ≤ 2 * (joinComma (rs.map objLit)).length + 2 := by
  induction rs with
  | nil => simp [rowsFuel, joinComma]
  | cons r0 t ih =>
    have hr := row_len_le r0
    have hobj : (objLit r0).length = (joinComma (r0.map fieldLit)).length + 2 := by
      simp [objLit]
    cases t with
    | nil =>
      simp only [rowsFuel, List.map_cons, List.map_nil, List.sum_cons,
        List.sum_nil, joinComma] at *
      omega
    | cons t0 t1 =>
      simp only [rowsFuel, List.map_cons, List.sum_cons, joinComma,
        List.length_append, List.length_cons] at *
      omega

theorem hs_len_le (hs : List String) :
    hs.length ≤ (joinComma (hs.map strLit)).length + 1 := by
  have h := joinComma_len_ge (hs.map strLit)
  simpa using h

theorem stringify_data (hs : List String) (rs : List (List (String × String))) :
    (stringifyTable hs rs).data = '\x7b' :: (tableBody hs rs ++ ['\x7d']) := rfl

theorem tableBody_len (hs : List String) (rs : List (List (String × String))) :
    (tableBody hs rs).length =
      (joinComma (hs.map strLit)).length +
      (joinComma (rs.map objLit)).length + 22 := by
  have h1 : (strLit "headers").length = 9 := by with_unfolding_all decide
  have h2 : (strLit "rows").length = 6 := by with_unfolding_all decide
  simp only [tableBody, List.length_append, List.length_cons, List.length_nil,
    h1, h2]
  omega

/-- The JSON value `JSON.parse` recovers from the serialized table. -/
def tableJson (hs : List String) (rs : List (List (String × String))) : Json :=
  Json.obj
    [("headers", Json.arr (hs.map Json.str)),
     ("rows", Json.arr (rs.map
       (fun row => Json.obj (row.map (fun p => (p.1, Json.str p.2))))))]

theorem jsonParse_stringify (hs : List String)
    (rs : List (List (String × String))) (hp : plainTable hs rs = true) :
    jsonParse (stringifyTable hs rs) = some (tableJson hs rs) := by
  rw [plainTable, Bool.and_eq_true] at hp
  have hlen := tableBody_len hs rs
  have hhs := hs_len_le hs
  have hrf := rowsFuel_le rs
  have hpv : pValue (2 * (stringifyTable hs rs).data.length + 2)
      ((stringifyTable hs rs).data) = some (tableJson hs rs, []) := by
    rw [stringify_data]
    obtain ⟨g, hg⟩ : ∃ g,
        2 * ('\x7b' :: (tableBody hs rs ++ ['\x7d'])).length + 2 = g + 1 + 1 + 1 :=
      ⟨2 * ('\x7b' :: (tableBody hs rs ++ ['\x7d'])).length - 1, by
        simp only [List.length_cons, List.length_append, List.length_nil]
        omega⟩
    have hgbound : 2 * (joinComma (hs.map strLit)).length +
        2 * (joinComma (rs.map objLit)).length + 44 ≤ g := by
      simp only [List.length_cons, List.length_append, List.length_nil] at hg
      omega
    rw [hg, pValue_lbrace]
    have hbody : tableBody hs rs ++ ['\x7d'] =
        strLit "headers" ++ ':' ::
          ('[' :: (joinComma (hs.map strLit) ++ ']' ::
            (',' :: (strLit "rows" ++ ':' ::
              ('[' :: (joinComma (rs.map objLit) ++ ']' :: ['\x7d'])))))) := by
      simp [tableBody]
    rw [hbody]
    rw [skipWsJ_strLit_append]
    have hquote : strLit "headers" ++ ':' ::
        ('[' :: (joinComma (hs.map strLit) ++ ']' ::
          (',' :: (strLit "rows" ++ ':' ::
            ('[' :: (joinComma (rs.map objLit) ++ ']' :: ['\x7d'])))))) =
        '"' :: ("headers".data ++ '"' :: ':' ::
          ('[' :: (joinComma (hs.map strLit) ++ ']' ::
            (',' :: (strLit "rows" ++ ':' ::
              ('[' :: (joinComma (rs.map objLit) ++ ']' :: ['\x7d']))))))) := by
      rw [strLit_plain "headers" (by decide)]
      simp
    rw [hquote]
    show (pFields (g + 1 + 1) ('"' :: ("headers".data ++ '"' :: ':' ::
        ('[' :: (joinComma (hs.map strLit) ++ ']' ::
          (',' :: (strLit "rows" ++ ':' ::
            ('[' :: (joinComma (rs.map objLit) ++ ']' :: ['\x7d']))))))))).map
      (fun p => (Json.obj p.1, p.2)) = _
    rw [← hquote]
    rw [pFields_two g "headers" "rows"
      (Json.arr (hs.map Json.str))
      (Json.arr (rs.map
        (fun row => Json.obj (row.map (fun p => (p.1, Json.str p.2))))))
      ('[' :: (joinComma (hs.map strLit) ++ ']' ::
        (',' :: (strLit "rows" ++ ':' ::
          ('[' :: (joinComma (rs.map objLit) ++ ']' :: ['\x7d']))))))
      ('[' :: (joinComma (rs.map objLit) ++ ']' :: ['\x7d'])) []
      (by decide) (by decide)
      (pValue_strArr hs (g + 1)
        (',' :: (strLit "rows" ++ ':' ::
          ('[' :: (joinComma (rs.map objLit) ++ ']' :: ['\x7d'])))) hp.1
        (by omega))
      (pValue_rowsArr rs g ['\x7d'] hp.2 (by omega))]
    rfl
  unfold jsonParse
  rw [hpv]
  rfl

theorem map_display_str (hs : List String) :
    (hs.map Json.str).map jsDisplayString = hs := by
  induction hs with
  | nil => rfl
  | cons h t ih =>
    simp only [List.map_cons, ih]
    rfl

theorem rows_roundtrip (row : List (String × String)) :
    (row.map (fun p => (p.1, Json.str p.2))).map
      (fun p => (p.1, coerceCell p.2)) = row := by
  induction row with
  | nil => rfl
  | cons r t ih =>
    simp only [List.map_cons, ih]
    rfl

theorem map_rows_roundtrip (hsJ : List Json)
    (rs : List (List (String × String))) :
    (rs.map (fun row => Json.obj (row.map (fun p => (p.1, Json.str p.2))))).map
      (jsonRowToRow hsJ) = rs := by
  induction rs with
  | nil => rfl
  | cons r t ih =>
    simp only [List.map_cons, ih]
    rw [show jsonRowToRow hsJ
        (Json.obj (r.map (fun p => (p.1, Json.str p.2)))) =
      (r.map (fun p => (p.1, Json.str p.2))).map
        (fun p => (p.1, coerceCell p.2)) from rfl]
    rw [rows_roundtrip r]

theorem jsonTableOf_tableJson (hs : List String)
    (rs : List (List (String × String))) :
    jsonTableOf (tableJson hs rs) =
      some ⟨hs, rs, some ⟨none, none, none⟩⟩ := by
  have hstep : jsonTableOf (tableJson hs rs) =
      some ⟨(hs.map Json.str).map jsDisplayString,
        (rs.map
          (fun row => Json.obj (row.map (fun p => (p.1, Json.str p.2))))).map
            (jsonRowToRow (hs.map Json.str)),
        some (metaOfJson none)⟩ := rfl
  rw [hstep, map_display_str, map_rows_roundtrip]
  rfl

theorem stringifyTable_ne_empty (hs : List String)
    (rs : List (List (String × String))) : stringifyTable hs rs ≠ "" := by
  intro h
  have hdata : ('\x7b' :: (tableBody hs rs ++ ['\x7d'])) = ([] : List Char) := by
    rw [← stringify_data, h]
  exact List.noConfusion hdata

theorem trimList_braced (B : List Char) :
    trimList ('\x7b' :: (B ++ ['\x7d'])) = '\x7b' :: (B ++ ['\x7d']) := by
  have h1 : ('\x7b' :: (B ++ ['\x7d'])).dropWhile isWsChar =
      '\x7b' :: (B ++ ['\x7d']) := skipWsJ_not_ws '\x7b' _ (by decide)
  have h2 : ('\x7b' :: (B ++ ['\x7d'])).reverse =
      '\x7d' :: (B.reverse ++ ['\x7b']) := by simp
  have h3 : ('\x7d' :: (B.reverse ++ ['\x7b'])).dropWhile isWsChar =
      '\x7d' :: (B.reverse ++ ['\x7b']) := skipWsJ_not_ws '\x7d' _ (by decide)
  unfold trimList
  rw [h1, h2, h3]
  simp

theorem jsTrim_stringify (hs : List String)
    (rs : List (List (String × String))) :
    jsTrim (stringifyTable hs rs) = stringifyTable hs rs := by
  show (⟨trimList (stringifyTable hs rs).data⟩ : String) = _
  rw [stringify_data, trimList_braced]
  rfl

theorem jsonFastPath_stringify (hs : List String)
    (rs : List (List (String × String))) (hp : plainTable hs rs = true) :
    jsonFastPath (stringifyTable hs rs) =
      some ⟨hs, rs, some ⟨none, none, none⟩⟩ := by
  unfold jsonFastPath
  rw [jsTrim_stringify, stringify_data]
  show (match jsonParse (stringifyTable hs rs) with
    | some v => jsonTableOf v
    | none => none) = _
  rw [jsonParse_stringify hs rs hp]
  show jsonTableOf (tableJson hs rs) = _
  exact jsonTableOf_tableJson hs rs

/-- **C7**: round-trip.  Serializing a table-shaped object (header
array, object rows, no metadata property) with `JSON.stringify` and
feeding the result to `parseOCRToTable` takes the JSON fast path and
returns exactly the same headers and rows (for cell and header strings
free of characters the serializer would escape); the metadata is the
empty object from `parsed.metadata || \x7b\x7d`. -/
theorem claim7_roundtrip (hs : List String)
    (rs : List (List (String × String))) (hp : plainTable hs rs = true) :
    parseOCRToTable (stringifyTable hs rs) =
      ⟨hs, rs, some ⟨none, none, none⟩⟩ := by
  unfold parseOCRToTable
  rw [if_neg (stringifyTable_ne_empty hs rs)]
  rw [jsonFastPath_stringify hs rs hp]

/-- Witness for C7 at the spec's example table
`\x7bheaders:["A","B"],rows:[\x7bA:"1",B:"2"\x7d]\x7d`. -/
theorem claim7_witness :
    plainTable ["A", "B"] [[("A", "1"), ("B", "2")]] = true ∧
    parseOCRToTable (stringifyTable ["A", "B"] [[("A", "1"), ("B", "2")]]) =
      ⟨["A", "B"], [[("A", "1"), ("B", "2")]], some ⟨none, none, none⟩⟩ :=
  ⟨by with_unfolding_all decide,
   claim7_roundtrip ["A", "B"] [[("A", "1"), ("B", "2")]]
     (by with_unfolding_all decide)⟩

/-- Concrete input for C9: `Drake Mallard` cell `-3` with another duck
keeping the record alive.  The species loop ignores the negative value,
but the independent mallard sum keeps it. -/
def c9BadSheets : List Sheet :=
  [⟨"11_19_25", ["Member", "Drake Mallard", "Sprig"],
    [[("Member", "b"), ("Drake Mallard", "-3"), ("Sprig", "2")]]⟩]

/-- Claim C9 as stated is false: a record with a negative mallard cell
has `totalMallards = -3 < 0`. -/
theorem claim9_counterexample :
    extractRecords c9BadSheets ≠ [] ∧
    ¬(∀ r ∈ extractRecords c9BadSheets, 0 ≤ r.totalMallards) := by
  with_unfolding_all decide

/-- Claim C9 (amended): `totalMallards` of every produced record equals
the sum of the parsed Drake Mallard and Hen Mallard cells, computed
independently of the species loop; it is non-negative whenever the two
parsed cell values are non-negative (non-numeric cells parse to 0), and
only a cell parsing to a negative number can make it negative. -/
theorem claim9_mallards (ctx : SheetCtx) (row : List (String × String))
    (r : HuntRecord) (h : extractRow ctx row = some r)
    (hd : 0 ≤ parseFloatD (mallardCell ctx.headers row "Drake Mallard" "drake"))
    (hh : 0 ≤ parseFloatD (mallardCell ctx.headers row "Hen Mallard" "hen")) :
    r.totalMallards =
      parseFloatD (mallardCell ctx.headers row "Drake Mallard" "drake") +
      parseFloatD (mallardCell ctx.headers row "Hen Mallard" "hen") ∧
    0 ≤ r.totalMallards := by
  obtain ⟨-, hrec⟩ := extractRow_inv ctx row r h
  subst hrec
  have heq : recordMallards ctx.headers row =
      parseFloatD (mallardCell ctx.headers row "Drake Mallard" "drake") +
      parseFloatD (mallardCell ctx.headers row "Hen Mallard" "hen") := rfl
  exact ⟨heq, by rw [heq] at *; exact add_nonneg hd hh⟩

/-- Concrete witness input for C9. -/
def c9Sheet : Sheet :=
  ⟨"11_19_25", ["Member", "Drake Mallard"],
    [[("Member", "b"), ("Drake Mallard", "2")]]⟩

/-- The record the C9 witness sheet extracts. -/
def c9Record : HuntRecord :=
  ⟨"11_19_25", "b", "", "Unknown", 0, "Unknown", 2, 0, [("Drake Mallard", 2)], 2⟩

/-- Witness for C9 at the concrete input. -/
theorem claim9_witness :
    c9Record.totalMallards =
      parseFloatD (mallardCell (ctxOf c9Sheet).headers
        [("Member", "b"), ("Drake Mallard", "2")] "Drake Mallard" "drake") +
      parseFloatD (mallardCell (ctxOf c9Sheet).headers
        [("Member", "b"), ("Drake Mallard", "2")] "Hen Mallard" "hen") ∧
    0 ≤ c9Record.totalMallards :=
  claim9_mallards (ctxOf c9Sheet)
    [("Member", "b"), ("Drake Mallard", "2")] c9Record
    (by with_unfolding_all decide)
    (by with_unfolding_all decide)
    (by with_unfolding_all decide)

end LOGC
